import Mathlib

/-!
Verification development for the InfiniteBomberman authoritative server core
(the richest server variant of the repository).  All definitions below are a
shallow embedding of that JavaScript source: JS objects used as maps become
association lists (`List (key × value)`) with JS-object update semantics
(overwrite in place, insert at the end), JS numbers holding grid data become
`Int`, timers become explicit functions applied later, and every use of
`Math.random()` / `Date.now()` becomes an explicit oracle parameter.
-/

namespace Bomberman

/-! ## Grid constants (from the source constants section) -/

def CELL_SIZE : Int := 32
def CANVAS_WIDTH : Int := 800
def CANVAS_HEIGHT : Int := 600

/-- `COLS = Math.floor(CANVAS_WIDTH / CELL_SIZE)` -/
def COLS : Int := CANVAS_WIDTH / CELL_SIZE

/-- `ROWS = Math.floor(CANVAS_HEIGHT / CELL_SIZE) + 1` (one extra row by design) -/
def ROWS : Int := CANVAS_HEIGHT / CELL_SIZE + 1

theorem COLS_eq : COLS = 25 := by decide
theorem ROWS_eq : ROWS = 19 := by decide

/-! ## Coordinate wrapping

`wrapCoordinate(value, max)` in the source is two `while` loops:
`while (value < 0) value += max; while (value >= max) value -= max`.
Each loop is embedded as a structurally recursive function carrying an
iteration bound that is provably sufficient for a positive modulus (for a
non-positive modulus the JS loops would not terminate; the program only ever
calls the function with the positive constants `COLS`/`ROWS`). -/

/-- The loop `while (value < 0) value += max`, with an iteration bound. -/
def wrapUpGo (mx : Int) : Nat → Int → Int
  | 0, v => v
  | n + 1, v => if v < 0 then wrapUpGo mx n (v + mx) else v

/-- The loop `while (value >= max) value -= max`, with an iteration bound. -/
def wrapDownGo (mx : Int) : Nat → Int → Int
  | 0, v => v
  | n + 1, v => if mx ≤ v then wrapDownGo mx n (v - mx) else v

/-- `wrapCoordinate(value, max)`: run the add-loop, then the subtract-loop. -/
def wrapCoordinate (value mx : Int) : Int :=
  let up := wrapUpGo mx value.natAbs value
  wrapDownGo mx up.toNat up

theorem wrapUpGo_spec (mx : Int) (hm : 0 < mx) :
    ∀ (n : Nat) (v : Int), -v ≤ (n : Int) →
      0 ≤ wrapUpGo mx n v ∧ wrapUpGo mx n v % mx = v % mx ∧
        (v < mx → wrapUpGo mx n v < mx) := by
  intro n
  induction n with
  | zero =>
    intro v hv
    simp only [wrapUpGo]
    exact ⟨by omega, by trivial, by omega⟩
  | succ n ih =>
    intro v hv
    simp only [wrapUpGo]
    by_cases h : v < 0
    · simp only [if_pos h]
      obtain ⟨h1, h2, h3⟩ := ih (v + mx) (by omega)
      refine ⟨h1, ?_, fun _ => h3 (by omega)⟩
      rw [h2, show v + mx = v + mx * 1 by ring, Int.add_mul_emod_self_left]
    · simp only [if_neg h]
      exact ⟨by omega, by trivial, by omega⟩

theorem wrapDownGo_spec (mx : Int) (hm : 0 < mx) :
    ∀ (n : Nat) (v : Int), 0 ≤ v → v ≤ (n : Int) →
      0 ≤ wrapDownGo mx n v ∧ wrapDownGo mx n v < mx ∧
        wrapDownGo mx n v % mx = v % mx := by
  intro n
  induction n with
  | zero =>
    intro v hv hn
    have hv0 : v = 0 := by omega
    subst hv0
    simp only [wrapDownGo]
    exact ⟨le_refl 0, hm, by trivial⟩
  | succ n ih =>
    intro v hv hn
    simp only [wrapDownGo]
    by_cases h : mx ≤ v
    · simp only [if_pos h]
      obtain ⟨h1, h2, h3⟩ := ih (v - mx) (by omega) (by omega)
      refine ⟨h1, h2, ?_⟩
      rw [h3, show v - mx = v + mx * (-1) by ring, Int.add_mul_emod_self_left]
    · simp only [if_neg h]
      exact ⟨hv, by omega, by trivial⟩

/-- For a positive modulus, `wrapCoordinate` is exactly Euclidean `%`. -/
theorem wrapCoordinate_eq_emod (v mx : Int) (hm : 0 < mx) :
    wrapCoordinate v mx = v % mx := by
  unfold wrapCoordinate
  obtain ⟨h1, h2, _⟩ := wrapUpGo_spec mx hm v.natAbs v (by omega)
  obtain ⟨h4, h5, h6⟩ := wrapDownGo_spec mx hm (wrapUpGo mx v.natAbs v).toNat
    (wrapUpGo mx v.natAbs v) h1 (by omega)
  rw [← Int.emod_eq_of_lt h4 h5, h6, h2]

/-- For a positive modulus the result lies in `[0, mx)`. -/
theorem wrapCoordinate_mem (v mx : Int) (hm : 0 < mx) :
    0 ≤ wrapCoordinate v mx ∧ wrapCoordinate v mx < mx := by
  rw [wrapCoordinate_eq_emod v mx hm]
  constructor
  · exact Int.emod_nonneg v (by omega)
  · exact Int.emod_lt_of_pos v hm

/-! ## Association lists with JS-object semantics

JS objects keyed by `"x,y"` strings (or by player id) are embedded as
association lists.  `aset` overwrites in place when the key exists and
appends otherwise (JS property order), `aremove` models `delete`. -/

def alookup {α β : Type} [DecidableEq α] : List (α × β) → α → Option β
  | [], _ => none
  | (a, b) :: l, k => if a = k then some b else alookup l k

def aset {α β : Type} [DecidableEq α] : List (α × β) → α → β → List (α × β)
  | [], k, v => [(k, v)]
  | (a, b) :: l, k, v => if a = k then (a, v) :: l else (a, b) :: aset l k v

def aremove {α β : Type} [DecidableEq α] : List (α × β) → α → List (α × β)
  | [], _ => []
  | (a, b) :: l, k => if a = k then aremove l k else (a, b) :: aremove l k

section AListLemmas

variable {α β : Type} [DecidableEq α]

@[simp] theorem alookup_nil (k : α) : alookup ([] : List (α × β)) k = none := rfl

theorem alookup_cons (a : α) (b : β) (l : List (α × β)) (k : α) :
    alookup ((a, b) :: l) k = if a = k then some b else alookup l k := rfl

theorem alookup_aset_self (l : List (α × β)) (k : α) (v : β) :
    alookup (aset l k v) k = some v := by
  induction l with
  | nil => simp [aset, alookup]
  | cons e l ih =>
    obtain ⟨a, b⟩ := e
    by_cases h : a = k
    · simp [aset, alookup, h]
    · simp [aset, alookup, h, ih]

theorem alookup_aset_ne (l : List (α × β)) (k k' : α) (v : β) (h : k ≠ k') :
    alookup (aset l k v) k' = alookup l k' := by
  induction l with
  | nil => simp [aset, alookup, h]
  | cons e l ih =>
    obtain ⟨a, b⟩ := e
    by_cases ha : a = k
    · subst ha; simp [aset, alookup, h]
    · simp only [aset, if_neg ha, alookup_cons]
      by_cases ha' : a = k' <;> simp [ha', ih]

theorem alookup_aremove_self (l : List (α × β)) (k : α) :
    alookup (aremove l k) k = none := by
  induction l with
  | nil => simp [aremove]
  | cons e l ih =>
    obtain ⟨a, b⟩ := e
    by_cases h : a = k
    · simp [aremove, h, ih]
    · simp [aremove, alookup, h, ih]

theorem alookup_aremove_ne (l : List (α × β)) (k k' : α) (h : k ≠ k') :
    alookup (aremove l k) k' = alookup l k' := by
  induction l with
  | nil => simp [aremove]
  | cons e l ih =>
    obtain ⟨a, b⟩ := e
    by_cases ha : a = k
    · subst ha; simp [aremove, alookup, h, ih]
    · simp only [aremove, if_neg ha, alookup_cons]
      by_cases ha' : a = k' <;> simp [ha', ih]

theorem mem_aset {l : List (α × β)} {k : α} {v : β} {e : α × β}
    (h : e ∈ aset l k v) : e = (k, v) ∨ e ∈ l := by
  induction l with
  | nil =>
    simp only [aset, List.mem_singleton] at h
    exact Or.inl h
  | cons hd l ih =>
    obtain ⟨a, b⟩ := hd
    by_cases ha : a = k
    · subst ha
      rw [show aset ((a, b) :: l) a v = (a, v) :: l by simp [aset]] at h
      rcases List.mem_cons.mp h with h1 | h1
      · exact Or.inl h1
      · exact Or.inr (List.mem_cons_of_mem _ h1)
    · rw [show aset ((a, b) :: l) k v = (a, b) :: aset l k v by simp [aset, ha]] at h
      rcases List.mem_cons.mp h with h1 | h1
      · exact Or.inr (h1 ▸ List.mem_cons_self _ _)
      · rcases ih h1 with h2 | h2
        · exact Or.inl h2
        · exact Or.inr (List.mem_cons_of_mem _ h2)

theorem mem_aremove {l : List (α × β)} {k : α} {e : α × β}
    (h : e ∈ aremove l k) : e ∈ l := by
  induction l with
  | nil => simpa [aremove] using h
  | cons hd l ih =>
    obtain ⟨a, b⟩ := hd
    by_cases ha : a = k
    · simp only [aremove, if_pos ha] at h
      exact List.mem_cons_of_mem _ (ih h)
    · simp only [aremove, if_neg ha, List.mem_cons] at h
      rcases h with h | h
      · simp [h]
      · exact List.mem_cons_of_mem _ (ih h)

theorem alookup_mem {l : List (α × β)} {k : α} {v : β}
    (h : alookup l k = some v) : (k, v) ∈ l := by
  induction l with
  | nil => simp [alookup] at h
  | cons hd l ih =>
    obtain ⟨a, b⟩ := hd
    by_cases ha : a = k
    · subst ha
      have h' : b = v := by simpa [alookup] using h
      subst h'
      exact List.mem_cons_self _ _
    · simp only [alookup, if_neg ha] at h
      exact List.mem_cons_of_mem _ (ih h)

theorem alookup_isSome_aset (l : List (α × β)) (k k' : α) (v : β)
    (h : (alookup l k').isSome) : (alookup (aset l k v) k').isSome := by
  by_cases hk : k = k'
  · subst hk; simp [alookup_aset_self]
  · rwa [alookup_aset_ne l k k' v hk]

theorem alookup_append_left {l₁ l₂ : List (α × β)} {k : α} {v : β}
    (h : alookup l₁ k = some v) : alookup (l₁ ++ l₂) k = some v := by
  induction l₁ with
  | nil => simp [alookup] at h
  | cons hd l ih =>
    obtain ⟨a, b⟩ := hd
    by_cases ha : a = k <;> simp_all [alookup_cons]

theorem alookup_append_right {l₁ l₂ : List (α × β)} {k : α}
    (h : alookup l₁ k = none) : alookup (l₁ ++ l₂) k = alookup l₂ k := by
  induction l₁ with
  | nil => simp
  | cons hd l ih =>
    obtain ⟨a, b⟩ := hd
    by_cases ha : a = k <;> simp_all [alookup_cons]

theorem alookup_eq_none_of_not_mem_keys {l : List (α × β)} {k : α}
    (h : k ∉ l.map Prod.fst) : alookup l k = none := by
  induction l with
  | nil => rfl
  | cons hd l ih =>
    obtain ⟨a, b⟩ := hd
    simp only [List.map_cons, List.mem_cons] at h
    push_neg at h
    have ha : ¬a = k := fun hh => h.1 hh.symm
    simp [alookup_cons, ha, ih h.2]

end AListLemmas

/-! ## Entity model (the `gameState` containers)

Positions are integer pairs; the JS `"x,y"` string keys are in bijection with
the pair of integers they print, so maps keyed by such strings are embedded
as maps keyed by `Pos`. -/

/-- A cell key, standing for the JS template string key `"x,y"`. -/
abbrev Pos : Type := Int × Int

/-- A held power-up effect object.  JS effect objects carry either a `uses`
field (counted effects) or an `expiresAt` field (timed effects); both carry
`active: true`.  Absent fields are `none`. -/
structure Effect where
  uses : Option Int := none
  active : Bool := true
  expiresAt : Option Int := none
  deriving DecidableEq, Repr

structure Player where
  id : String
  x : Int
  y : Int
  color : String
  alive : Bool
  lives : Int
  powerups : List (String × Effect)
  deriving DecidableEq, Repr

structure Bomb where
  id : String
  x : Int
  y : Int
  timer : Int
  range : Int
  type : String
  playerId : String
  deriving DecidableEq, Repr

structure Explosion where
  x : Int
  y : Int
  createdAt : Int
  deriving DecidableEq, Repr

structure Wall where
  x : Int
  y : Int
  destructible : Bool
  deriving DecidableEq, Repr

structure Powerup where
  x : Int
  y : Int
  type : String
  createdAt : Int
  deriving DecidableEq, Repr

structure FireTrail where
  x : Int
  y : Int
  createdAt : Int
  playerId : String
  deriving DecidableEq, Repr

/-- The mutable `gameState` record.  (The unused `gameStarted` flag is
omitted: no modeled operation reads or writes it.) -/
structure World where
  players : List (String × Player)
  bombs : List (Pos × Bomb)
  explosions : List (Pos × Explosion)
  walls : List (Pos × Wall)
  powerups : List (Pos × Powerup)
  fireTrails : List (Pos × FireTrail)
  deriving DecidableEq, Repr

def emptyWorld : World :=
  { players := [], bombs := [], explosions := [], walls := [], powerups := [],
    fireTrails := [] }

/-! ## Power-up catalog

`POWERUPS` from the source, in declaration order (= `Object.values` order).
Only the fields the engine behavior reads (`id`, `duration`) are kept;
display metadata and the unused `spawnChance` numbers are presentation-only
and never consulted by any modeled operation. -/

structure PowerupDef where
  id : String
  duration : Int
  deriving DecidableEq, Repr

def powerupDefs : List PowerupDef :=
  [⟨"mega_bomb", 0⟩, ⟨"tornado_bomb", 0⟩, ⟨"fire_trail", 10000⟩,
   ⟨"ghost_mode", 10000⟩, ⟨"teleport", 0⟩, ⟨"extra_life", 0⟩,
   ⟨"force_field", 8000⟩, ⟨"swap", 0⟩, ⟨"scramble", 0⟩, ⟨"magnet", 5000⟩,
   ⟨"wall_builder", 0⟩]

/-- `Object.values(POWERUPS).find(p => p.id === type)`. -/
def powerupDefFind (t : String) : Option PowerupDef :=
  powerupDefs.find? (fun pd => decide (pd.id = t))

/-! ## Small helpers over player effect objects -/

/-- `player.powerups?.[kind]?.active` (undefined is falsy). -/
def effActive (p : Player) (kind : String) : Bool :=
  match alookup p.powerups kind with
  | some e => e.active
  | none => false

/-- `player.powerups?.[kind]?.uses || 0` (an absent object or field reads
as `0`; the source only ever compares this against `0`). -/
def usesOf (p : Player) (kind : String) : Int :=
  match alookup p.powerups kind with
  | some e => e.uses.getD 0
  | none => 0

def updPlayer (pid : String) (p : Player) (w : World) : World :=
  { w with players := aset w.players pid p }

/-! ## Core queries and power-up operations -/

/-- `spawnPowerup(x, y)`: always spawns one power-up at the cell; the random
catalog index is supplied by the oracle `pick` (reduced modulo the catalog
size, modeling `Math.floor(Math.random() * length)`). -/
def spawnPowerup (pick : Int → Int → Nat) (now : Int) (x y : Int) (w : World) : World :=
  let idx := pick x y % powerupDefs.length
  let t := ((powerupDefs.getD idx ⟨"", 0⟩).id)
  { w with powerups := aset w.powerups (x, y) ⟨x, y, t, now⟩ }

/-- `getSpawnPosition()`: first free corner-ish candidate, else grid center. -/
def getSpawnPosition (players : List (String × Player)) (walls : List (Pos × Wall)) :
    Int × Int :=
  let positions : List (Int × Int) :=
    [(2, 2), (COLS - 3, 2), (2, ROWS - 3), (COLS - 3, ROWS - 3)]
  match positions.find? (fun pos =>
      !(players.any (fun e => decide (e.2.x = pos.1) && decide (e.2.y = pos.2))) &&
      !(alookup walls pos).isSome) with
  | some pos => pos
  | none => (COLS / 2, ROWS / 2)

/-- `isValidPosition(x, y)`: wrap, then require the cell free of walls and
bombs. -/
def isValidPosition (x y : Int) (w : World) : Bool :=
  let wrappedX := wrapCoordinate x COLS
  let wrappedY := wrapCoordinate y ROWS
  !(alookup w.walls (wrappedX, wrappedY)).isSome &&
    !(alookup w.bombs (wrappedX, wrappedY)).isSome

/-- The scramble retry loop: `do { draw } while (attempts < 20 && wall)`.
`k` is the attempt index, the second argument the remaining retries; the
`Math.floor(Math.random() * N)` draws are the oracle values modulo `N`. -/
def scrambleGo (walls : List (Pos × Wall)) (draw : Nat → Nat × Nat) (k : Nat) :
    Nat → Int × Int
  | 0 =>
    (((draw k).1 % COLS.toNat : Nat), ((draw k).2 % ROWS.toNat : Nat))
  | rem + 1 =>
    let nx : Int := ((draw k).1 % COLS.toNat : Nat)
    let ny : Int := ((draw k).2 % ROWS.toNat : Nat)
    if (alookup walls (nx, ny)).isSome then scrambleGo walls draw (k + 1) rem
    else (nx, ny)

/-- `updatePlayerPowerups`: evict effects whose `expiresAt` has passed
(counted effects have no `expiresAt` and are kept). -/
def updatePlayerPowerups (now : Int) (p : Player) : Player :=
  { p with
    powerups := p.powerups.filter (fun e =>
      match e.2.expiresAt with
      | some t => !decide (now > t)
      | none => true) }

/-- `collectPowerup(playerId, x, y)`.  Oracles: `chooseSwap` indexes the swap
target, `scrR` supplies the scramble position draws per player id. -/
def collectPowerup (chooseSwap : Nat) (scrR : String → Nat → Nat × Nat) (now : Int)
    (playerId : String) (x y : Int) (w : World) : World × Bool :=
  let key : Pos := (x, y)
  match alookup w.powerups key with
  | none => (w, false)
  | some pu =>
    match alookup w.players playerId with
    | none => (w, false)
    | some player =>
      match powerupDefFind pu.type with
      | none => (w, false)
      | some pdef =>
        let w1 :=
          if pu.type = "extra_life" then
            updPlayer playerId { player with lives := min (player.lives + 1) 8 } w
          else if pu.type = "swap" then
            let aliveIds :=
              (w.players.filter (fun e => decide (e.1 ≠ playerId) && e.2.alive)).map
                Prod.fst
            if 0 < aliveIds.length then
              let targetId := aliveIds.getD (chooseSwap % aliveIds.length) ""
              match alookup w.players targetId with
              | some target =>
                updPlayer targetId { target with x := player.x, y := player.y }
                  (updPlayer playerId { player with x := target.x, y := target.y } w)
              | none => w
            else w
          else if pu.type = "scramble" then
            { w with players := w.players.map (fun e =>
                if e.2.alive then
                  let pos := scrambleGo w.walls (scrR e.1) 0 19
                  (e.1, { e.2 with x := pos.1, y := pos.2 })
                else e) }
          else if 0 < pdef.duration then
            let eff : Effect :=
              { uses := none, active := true, expiresAt := some (now + pdef.duration) }
            updPlayer playerId
              { player with powerups := aset player.powerups pu.type eff } w
          else
            let prev :=
              match alookup player.powerups pu.type with
              | some e => e.uses.getD 0
              | none => 0
            let eff : Effect :=
              if pu.type = "wall_builder" then
                { uses := some 3, active := true, expiresAt := none }
              else
                { uses := some (prev + 1), active := true, expiresAt := none }
            updPlayer playerId
              { player with powerups := aset player.powerups pu.type eff } w
        ({ w1 with powerups := aremove w1.powerups key }, true)

/-! ## Collision resolution (`checkPlayerExplosionCollisions`)

The JS `Object.values(...).forEach` mutates each player record in place
while `getSpawnPosition` reads the whole live `players` map.  The embedding
walks the list with a zipper: `done` holds the already-processed entries and
`rest` the untouched tail, so the spawn query sees exactly the mid-iteration
map (with the current player's `lives` already decremented, as in the
source). -/

/-- The `forEach` body applied to one player: `done`/`rest` are the parts of
the live `players` map around the player being processed (the spawn query
sees the current player's `lives` already decremented but the position
still old, as in the source). -/
def cpecStep (walls : List (Pos × Wall)) (explosionPositions : List Pos)
    (done rest : List (String × Player)) (pid : String) (p : Player) : Player :=
  if !p.alive then p
  else if (p.x, p.y) ∈ explosionPositions then
    if effActive p "force_field" then p
    else
      let p1 := { p with lives := p.lives - 1 }
      if 0 < p1.lives then
        let sp := getSpawnPosition (done ++ (pid, p1) :: rest) walls
        { p1 with x := sp.1, y := sp.2, alive := true }
      else { p1 with alive := false }
  else p

def cpecGo (walls : List (Pos × Wall)) (explosionPositions : List Pos) :
    List (String × Player) → List (String × Player) → List (String × Player)
  | done, [] => done
  | done, (pid, p) :: rest =>
    cpecGo walls explosionPositions
      (done ++ [(pid, cpecStep walls explosionPositions done rest pid p)]) rest

def checkPlayerExplosionCollisions (explosionPositions : List Pos) (w : World) : World :=
  { w with players := cpecGo w.walls explosionPositions [] w.players }

/-! ## Explosion engine -/

/-- The four axis directions, in source order. -/
def dirsList : List (Int × Int) := [(0, 1), (0, -1), (1, 0), (-1, 0)]

/-- One direction of `createNormalExplosion`: the inner
`for (i = 1; i <= range; i++)` loop with its `stopped` flag.  The first
argument of the recursion is the remaining number of steps, the second the
current step index `i`.  At each step the wrapped cell gets an explosion
entry unconditionally; a wall then stops the ray (a destructible wall is
additionally removed and a power-up spawned). -/
def normalRayGo (pick : Int → Int → Nat) (now : Int) (bomb : Bomb) (dx dy : Int) :
    Nat → Nat → World → List Pos × World
  | 0, _, w => ([], w)
  | fuel + 1, i, w =>
    let x := bomb.x + dx * (i : Int)
    let y := bomb.y + dy * (i : Int)
    let wrappedX := wrapCoordinate x COLS
    let wrappedY := wrapCoordinate y ROWS
    let c : Pos := (wrappedX, wrappedY)
    let w1 := { w with explosions := aset w.explosions c ⟨wrappedX, wrappedY, now⟩ }
    match alookup w1.walls c with
    | some wall =>
      if wall.destructible then
        ([c], spawnPowerup pick now wrappedX wrappedY
          { w1 with walls := aremove w1.walls c })
      else ([c], w1)
    | none =>
      let r := normalRayGo pick now bomb dx dy fuel (i + 1) w1
      (c :: r.1, r.2)

/-- `createNormalExplosion(bomb)`: the four rays in order, threading the
world (wall removals made by an earlier ray are seen by later rays, exactly
as in the source). -/
def createNormalExplosion (pick : Int → Int → Nat) (now : Int) (bomb : Bomb)
    (w : World) : List Pos × World :=
  dirsList.foldl (fun acc d =>
    let r := normalRayGo pick now bomb d.1 d.2 bomb.range.toNat 1 acc.2
    (acc.1 ++ r.1, r.2)) ([], w)

/-- The fixed 40-offset spiral pattern of `createTornadoExplosion`. -/
def spiralPattern : List (Int × Int) :=
  [(0, 1), (1, 1), (1, 0), (1, -1), (0, -1), (-1, -1), (-1, 0), (-1, 1),
   (0, 2), (1, 2), (2, 1), (2, 0), (2, -1), (1, -2), (0, -2), (-1, -2),
   (-2, -1), (-2, 0), (-2, 1), (-1, 2),
   (0, 3), (1, 3), (2, 3), (3, 2), (3, 1), (3, 0), (3, -1), (3, -2),
   (2, -3), (1, -3), (0, -3), (-1, -3), (-2, -3), (-3, -2), (-3, -1),
   (-3, 0), (-3, 1), (-3, 2), (-2, 3), (-1, 3)]

/-- The wrapped absolute cell of one spiral offset. -/
def spiralCell (bomb : Bomb) (d : Int × Int) : Pos :=
  (wrapCoordinate (bomb.x + d.1) COLS, wrapCoordinate (bomb.y + d.2) ROWS)

/-- The `spiralPattern.forEach` body of `createTornadoExplosion`, walked
offset by offset: every offset is visited; walls never stop the iteration,
destructible walls are removed and spawn a power-up. -/
def tornadoGo (pick : Int → Int → Nat) (now : Int) (bomb : Bomb) :
    List (Int × Int) → World → List Pos × World
  | [], w => ([], w)
  | d :: offs, w =>
    let c := spiralCell bomb d
    let w1 := { w with explosions := aset w.explosions c ⟨c.1, c.2, now⟩ }
    let w2 :=
      match alookup w1.walls c with
      | some wall =>
        if wall.destructible then
          spawnPowerup pick now c.1 c.2 { w1 with walls := aremove w1.walls c }
        else w1
      | none => w1
    let r := tornadoGo pick now bomb offs w2
    (c :: r.1, r.2)

/-- `createTornadoExplosion(bomb)`. -/
def createTornadoExplosion (pick : Int → Int → Nat) (now : Int) (bomb : Bomb)
    (w : World) : List Pos × World :=
  tornadoGo pick now bomb spiralPattern w

/-- `explodeBomb(bomb)` minus its `setTimeout`: returns the updated world and
the `explosionPositions` list that the decay timer closure captures. -/
def explodeBomb (pick : Int → Int → Nat) (now : Int) (bomb : Bomb) (w : World) :
    World × List Pos :=
  let centerPos : Pos := (bomb.x, bomb.y)
  let w1 := { w with explosions := aset w.explosions centerPos ⟨bomb.x, bomb.y, now⟩ }
  let r :=
    if bomb.type = "tornado" then createTornadoExplosion pick now bomb w1
    else createNormalExplosion pick now bomb w1
  let explosionPositions := centerPos :: r.1
  (checkPlayerExplosionCollisions explosionPositions r.2, explosionPositions)

/-- The decay timer body: delete exactly the captured position keys. -/
def decayExplosions (explosionPositions : List Pos) (w : World) : World :=
  { w with explosions := explosionPositions.foldl (fun e pos => aremove e pos) w.explosions }

/-! ## Commands -/

/-- Decrement a counted effect's `uses` and delete the effect at `<= 0`
(the `uses--; if (uses <= 0) delete` idiom). -/
def consumeUse (kind : String) (player : Player) : Player :=
  match alookup player.powerups kind with
  | some e =>
    let newUses := e.uses.getD 0 - 1
    if newUses ≤ 0 then { player with powerups := aremove player.powerups kind }
    else { player with powerups := aset player.powerups kind { e with uses := some newUses } }
  | none => player

/-- `placeBomb(playerId, x, y)`.  Note: the input coordinates are NOT
wrapped anywhere on this path; the bomb is stored under, and with, the raw
coordinates.  `bid` stands for the generated `bomb_${Date.now()}_${random}`
id string. -/
def placeBomb (bid : String) (playerId : String) (x y : Int) (w : World) :
    World × Bool :=
  let bombKey : Pos := (x, y)
  if (alookup w.bombs bombKey).isSome then (w, false)
  else
    match alookup w.players playerId with
    | none => (w, false)
    | some player =>
      let choice : Int × String × Player :=
        if 0 < usesOf player "mega_bomb" then
          (6, "mega", consumeUse "mega_bomb" player)
        else if 0 < usesOf player "tornado_bomb" then
          (3, "tornado", consumeUse "tornado_bomb" player)
        else (3, "normal", player)
      let w1 := updPlayer playerId choice.2.2 w
      let bomb : Bomb :=
        { id := bid, x := x, y := y, timer := 3000, range := choice.1,
          type := choice.2.1, playerId := playerId }
      ({ w1 with bombs := aset w1.bombs bombKey bomb }, true)

/-- The `socket.on('placeBomb')` handler around `placeBomb`. -/
def placeBombCmd (bid pid : String) (x y : Int) (w : World) : World :=
  match alookup w.players pid with
  | none => w
  | some player => if !player.alive then w else (placeBomb bid pid x y w).1

/-- One axis of the magnet pull: step the power-up one cell toward the
player along the shortest wrap-aware direction (the per-axis body of the
`powerupsToMove.forEach`, with `mx` the axis size `COLS`/`ROWS`). -/
def pullCoordinate (target cur mx : Int) : Int :=
  if cur ≠ target then
    let d := target - cur
    let wrapped := if mx / 2 < d then d - mx else if d < -(mx / 2) then d + mx else d
    wrapCoordinate (cur + (if 0 < wrapped then 1 else -1)) mx
  else cur

/-- One power-up being pulled one step toward the player by the magnet. -/
def movePullOne (wrappedX wrappedY : Int) (pu : Powerup) (w : World) : World :=
  let oldKey : Pos := (pu.x, pu.y)
  let newX := pullCoordinate wrappedX pu.x COLS
  let newY := pullCoordinate wrappedY pu.y ROWS
  let newKey : Pos := (newX, newY)
  if !(alookup w.powerups newKey).isSome && !(alookup w.walls newKey).isSome then
    let moved := { pu with x := newX, y := newY }
    { w with powerups := aset (aremove w.powerups oldKey) newKey moved }
  else w

/-- The magnet effect: select power-ups within wrap-aware Chebyshev-style
range 3 of the player's new cell, then pull each one step. -/
def magnetPull (wrappedX wrappedY : Int) (w : World) : World :=
  let powerupsToMove := (w.powerups.map Prod.snd).filter (fun pu =>
    let dx := |pu.x - wrappedX|
    let dy := |pu.y - wrappedY|
    let wrappedDx := min dx (COLS - dx)
    let wrappedDy := min dy (ROWS - dy)
    decide (wrappedDx ≤ 3) && decide (wrappedDy ≤ 3))
  powerupsToMove.foldl (fun w pu => movePullOne wrappedX wrappedY pu w) w

/-- Stage 1 of a successful move: deposit a fire trail at the player's
previous cell when the fire-trail effect is active. -/
def moveTrail (now : Int) (pid : String) (player : Player) (w : World) : World :=
  if effActive player "fire_trail" then
    let ft : FireTrail := ⟨player.x, player.y, now, pid⟩
    { w with fireTrails := aset w.fireTrails (player.x, player.y) ft }
  else w

/-- Stage 3 of a successful move: the magnet pull when active. -/
def moveMagnet (player : Player) (wrappedX wrappedY : Int) (w : World) : World :=
  if effActive player "magnet" then magnetPull wrappedX wrappedY w else w

/-- Stage 5 of a successful move: damage from another player's fire trail
on the arrival cell. -/
def moveFireTrailHit (pid : String) (wrappedX wrappedY : Int) (w : World) : World :=
  match alookup w.fireTrails (wrappedX, wrappedY) with
  | some fireTrail =>
    if fireTrail.playerId ≠ pid then
      checkPlayerExplosionCollisions [(wrappedX, wrappedY)] w
    else w
  | none => w

/-- The `socket.on('move')` handler: validate, then run the five stages of
the success path in source order (trail deposit, position update, magnet,
collection, fire-trail damage). -/
def moveCmd (chooseSwap : Nat) (scrR : String → Nat → Nat × Nat) (now : Int)
    (pid : String) (x y : Int) (w : World) : World :=
  match alookup w.players pid with
  | none => w
  | some player =>
    if !player.alive then w
    else
      let wrappedX := wrapCoordinate x COLS
      let wrappedY := wrapCoordinate y ROWS
      let hasGhostMode := effActive player "ghost_mode"
      let canMove :=
        if hasGhostMode then !(alookup w.bombs (wrappedX, wrappedY)).isSome
        else isValidPosition x y w
      if canMove then
        moveFireTrailHit pid wrappedX wrappedY
          (collectPowerup chooseSwap scrR now pid wrappedX wrappedY
            (moveMagnet player wrappedX wrappedY
              (updPlayer pid { player with x := wrappedX, y := wrappedY }
                (moveTrail now pid player w)))).1
      else w

/-- The `socket.on('teleport')` handler. -/
def teleportCmd (pid : String) (x y : Int) (w : World) : World :=
  match alookup w.players pid with
  | none => w
  | some player =>
    if !player.alive then w
    else if usesOf player "teleport" ≤ 0 then w
    else
      let wrappedX := wrapCoordinate x COLS
      let wrappedY := wrapCoordinate y ROWS
      if isValidPosition x y w then
        updPlayer pid (consumeUse "teleport" { player with x := wrappedX, y := wrappedY }) w
      else w

/-- The `socket.on('buildWall')` handler. -/
def buildWallCmd (pid : String) (x y : Int) (w : World) : World :=
  match alookup w.players pid with
  | none => w
  | some player =>
    if !player.alive then w
    else if usesOf player "wall_builder" ≤ 0 then w
    else
      let wrappedX := wrapCoordinate x COLS
      let wrappedY := wrapCoordinate y ROWS
      let wallKey : Pos := (wrappedX, wrappedY)
      let occupied :=
        (alookup w.walls wallKey).isSome || (alookup w.bombs wallKey).isSome ||
        (alookup w.powerups wallKey).isSome ||
        w.players.any (fun e => decide (e.2.x = wrappedX) && decide (e.2.y = wrappedY))
      if !occupied then
        updPlayer pid (consumeUse "wall_builder" player)
          { w with walls := aset w.walls wallKey ⟨wrappedX, wrappedY, true⟩ }
      else w

def playerColors : List String := ["#ff4444", "#44ff44", "#4444ff", "#ffff44"]

/-- The `setPlayerId` handler: create the player on first contact, reuse the
record on reconnection. -/
def identifyCmd (pid : String) (w : World) : World :=
  if (alookup w.players pid).isSome then w
  else
    let spawnPos := getSpawnPosition w.players w.walls
    let playerCount := w.players.length
    let newPlayer : Player :=
      { id := pid, x := spawnPos.1, y := spawnPos.2,
        color := playerColors.getD (playerCount % playerColors.length) "",
        alive := true, lives := 5, powerups := [] }
    { w with players := aset w.players pid newPlayer }

/-! ## Wall initialization and periodic block spawning -/

/-- `initializeWalls()`.  The `for (x = 1; x < COLS-1; x += 2)` lattice is
the list of odd values below `COLS - 1` (likewise for rows); the 120 random
destructible-wall draws come from the oracle, reduced to the source's
`Math.floor(Math.random() * (N - 4)) + 2` ranges. -/
def initWalls (draw : Nat → Nat × Nat) (w : World) : World :=
  let xs : List Int := ((List.range COLS.toNat).map Int.ofNat).filter
    (fun x => decide (x % 2 = 1) && decide (x < COLS - 1))
  let ys : List Int := ((List.range ROWS.toNat).map Int.ofNat).filter
    (fun y => decide (y % 2 = 1) && decide (y < ROWS - 1))
  let fixedWalls : List (Pos × Wall) :=
    (xs.map (fun x => ys.map (fun y => (((x, y) : Pos), (⟨x, y, false⟩ : Wall))))).flatten
  let walls := (List.range 120).foldl (fun walls i =>
    let r := draw i
    let x : Int := ((r.1 % (COLS - 4).toNat : Nat) : Int) + 2
    let y : Int := ((r.2 % (ROWS - 4).toNat : Nat) : Int) + 2
    let key : Pos := (x, y)
    if !(alookup walls key).isSome &&
        !(decide (x ≤ 2) && decide (y ≤ 2)) &&
        !(decide (COLS - 3 ≤ x) && decide (y ≤ 2)) &&
        !(decide (x ≤ 2) && decide (ROWS - 3 ≤ y)) &&
        !(decide (COLS - 3 ≤ x) && decide (ROWS - 3 ≤ y)) then
      aset walls key ⟨x, y, true⟩
    else walls) fixedWalls
  { w with walls := walls }

/-- The `io.on('connection')` prologue: initialize walls for the first
player. -/
def connectOp (draw : Nat → Nat × Nat) (w : World) : World :=
  if w.players.length = 0 then initWalls draw w else w

/-- The attempt loop of `spawnRandomBlock` (up to 20 random placements,
stopping at the first success). -/
def srbGo (draw : Nat → Nat × Nat) : Nat → Nat → World → World
  | _, 0, w => w
  | k, fuel + 1, w =>
    let r := draw k
    let x : Int := ((r.1 % (COLS - 4).toNat : Nat) : Int) + 2
    let y : Int := ((r.2 % (ROWS - 4).toNat : Nat) : Int) + 2
    let wallKey : Pos := (x, y)
    let positionEmpty :=
      !(alookup w.walls wallKey).isSome && !(alookup w.powerups wallKey).isSome &&
      !(w.bombs.any (fun e => decide (e.2.x = x) && decide (e.2.y = y))) &&
      !(w.players.any (fun e => decide (e.2.x = x) && decide (e.2.y = y)))
    let tooCloseToStart :=
      (decide (x ≤ 2) && decide (y ≤ 2)) ||
      (decide (COLS - 3 ≤ x) && decide (y ≤ 2)) ||
      (decide (x ≤ 2) && decide (ROWS - 3 ≤ y)) ||
      (decide (COLS - 3 ≤ x) && decide (ROWS - 3 ≤ y))
    if positionEmpty && !tooCloseToStart then
      { w with walls := aset w.walls wallKey ⟨x, y, true⟩ }
    else srbGo draw (k + 1) fuel w

/-- `spawnRandomBlock()` with its destructible-wall cap of 150. -/
def spawnRandomBlock (draw : Nat → Nat × Nat) (w : World) : World :=
  let currentWallCount := (w.walls.filter (fun e => e.2.destructible)).length
  if 150 ≤ currentWallCount then w
  else srbGo draw 0 20 w

/-- The bomb-fuse timer body: explode the bomb stored under the captured
key, then delete it (a missing bomb makes both steps no-ops). -/
def fuseFire (pick : Int → Int → Nat) (now : Int) (key : Pos) (w : World) : World :=
  match alookup w.bombs key with
  | none => w
  | some bomb =>
    let w1 := (explodeBomb pick now bomb w).1
    { w1 with bombs := aremove w1.bombs key }

/-- The fire-trail decay timer body. -/
def trailDecayOp (key : Pos) (w : World) : World :=
  { w with fireTrails := aremove w.fireTrails key }

/-- The lazy timed-effect expiry performed on every broadcast. -/
def expireOp (now : Int) (w : World) : World :=
  { w with players := w.players.map (fun e => (e.1, updatePlayerPowerups now e.2)) }

/-! ## The operations of the core

Every externally triggered mutation of the world: client commands and timer
bodies, each with its oracle data (random draws, clock readings, generated
ids). -/

inductive Op where
  | connect (draw : Nat → Nat × Nat)
  | identify (pid : String)
  | move (chooseSwap : Nat) (scrR : String → Nat → Nat × Nat) (now : Int)
      (pid : String) (x y : Int)
  | place (bid pid : String) (x y : Int)
  | teleport (pid : String) (x y : Int)
  | build (pid : String) (x y : Int)
  | fuse (pick : Int → Int → Nat) (now : Int) (key : Pos)
  | decay (explosionPositions : List Pos)
  | trailDecay (key : Pos)
  | blockSpawn (draw : Nat → Nat × Nat)
  | expire (now : Int)

def applyOp : Op → World → World
  | .connect draw, w => connectOp draw w
  | .identify pid, w => identifyCmd pid w
  | .move cs sr now pid x y, w => moveCmd cs sr now pid x y w
  | .place bid pid x y, w => placeBombCmd bid pid x y w
  | .teleport pid x y, w => teleportCmd pid x y w
  | .build pid x y, w => buildWallCmd pid x y w
  | .fuse pick now key, w => fuseFire pick now key w
  | .decay ps, w => decayExplosions ps w
  | .trailDecay key, w => trailDecayOp key w
  | .blockSpawn draw, w => spawnRandomBlock draw w
  | .expire now, w => expireOp now w

/-! # Claim C7: wrapCoordinate range and congruence -/

/-- C7: for every integer `v` and every positive modulus `m`,
`wrap(v, m)` lies in `[0, m)` and `wrap(v, m)` is congruent to `v` mod `m`. -/
theorem c7_wrap_range_congruence (v m : Int) (hm : 0 < m) :
    0 ≤ wrapCoordinate v m ∧ wrapCoordinate v m < m ∧
      wrapCoordinate v m % m = v % m := by
  obtain ⟨h1, h2⟩ := wrapCoordinate_mem v m hm
  refine ⟨h1, h2, ?_⟩
  rw [wrapCoordinate_eq_emod v m hm]
  exact Int.emod_emod_of_dvd v dvd_rfl

theorem c7_wrap_range_congruence_witness :
    0 < (25 : Int) ∧
      (0 ≤ wrapCoordinate (-7) 25 ∧ wrapCoordinate (-7) 25 < 25 ∧
        wrapCoordinate (-7) 25 % 25 = (-7) % 25) :=
  ⟨by decide, c7_wrap_range_congruence (-7) 25 (by decide)⟩

/-! # Claim C5: explosion decay

The decay closure deletes exactly the position keys captured at detonation
time.  That is precisely what the amended claim states; the original claim's
guarantee that a *different* detonation's still-present cells survive is
refuted by two overlapping detonations below. -/

theorem foldl_aremove_alookup (q : Pos) :
    ∀ (ps : List Pos) (e : List (Pos × Explosion)),
      alookup (ps.foldl (fun acc pos => aremove acc pos) e) q =
        if q ∈ ps then none else alookup e q := by
  intro ps
  induction ps with
  | nil => intro e; simp
  | cons a ps ih =>
    intro e
    simp only [List.foldl_cons, ih, List.mem_cons]
    by_cases hq : q ∈ ps
    · simp [hq]
    · by_cases ha : q = a
      · subst ha
        simp [hq, alookup_aremove_self]
      · simp [hq, ha, alookup_aremove_ne e a q (fun hh => ha hh.symm)]

/-- C5 (amended): the scheduled decay of a detonation removes exactly the
entries stored under the positions that detonation created; the entry at
every other position is left unchanged.  (Because the explosion container
is keyed by cell, an entry at a shared position is removed even when a
later detonation re-created it — see the counterexample.) -/
theorem c5_decay_exact (explosionPositions : List Pos) (w : World) (q : Pos) :
    alookup (decayExplosions explosionPositions w).explosions q =
      if q ∈ explosionPositions then none else alookup w.explosions q := by
  unfold decayExplosions
  exact foldl_aremove_alookup q explosionPositions w.explosions

/-- Detonation A: a normal bomb at (5,5) at time 100. -/
def c5BombA : Bomb :=
  { id := "a", x := 5, y := 5, timer := 3000, range := 3, type := "normal",
    playerId := "p" }

/-- Detonation B: a normal bomb at (5,6) at time 400, one cell below A. -/
def c5BombB : Bomb :=
  { id := "b", x := 5, y := 6, timer := 3000, range := 3, type := "normal",
    playerId := "p" }

def c5AfterA : World × List Pos := explodeBomb (fun _ _ => 0) 100 c5BombA emptyWorld

def c5AfterB : World × List Pos := explodeBomb (fun _ _ => 0) 400 c5BombB c5AfterA.1

/-- C5 counterexample: cell (5,6) is created by detonation A and re-created
(with `createdAt = 400`) by the later detonation B; when A's decay runs,
the still-present cell belonging to B is removed rather than left
unchanged. -/
theorem c5_decay_counterexample :
    (5, 6) ∈ c5AfterA.2 ∧
      alookup c5AfterB.1.explosions (5, 6) = some ⟨5, 6, 400⟩ ∧
      alookup (decayExplosions c5AfterA.2 c5AfterB.1).explosions (5, 6) = none := by
  decide

/-! # Claim C9: counted power-up collection -/

/-- C9: collecting a `wall_builder` ground power-up leaves exactly 3 uses
regardless of how many remained, while collecting any other counted kind
(`mega_bomb`, `tornado_bomb`, `teleport`) increments the stored uses by
exactly one (an absent effect counting as 0 uses). -/
theorem c9_counted_collection (chooseSwap : Nat) (scrR : String → Nat → Nat × Nat)
    (now : Int) (pid : String) (x y : Int) (w : World) (pu : Powerup)
    (player : Player)
    (hpu : alookup w.powerups (x, y) = some pu)
    (hp : alookup w.players pid = some player) :
    (pu.type = "wall_builder" → ∃ p',
        alookup (collectPowerup chooseSwap scrR now pid x y w).1.players pid
          = some p' ∧
        ∃ e, alookup p'.powerups "wall_builder" = some e ∧ e.uses = some 3) ∧
    (∀ kind, (kind = "mega_bomb" ∨ kind = "tornado_bomb" ∨ kind = "teleport") →
      pu.type = kind → ∃ p',
        alookup (collectPowerup chooseSwap scrR now pid x y w).1.players pid
          = some p' ∧
        ∃ e, alookup p'.powerups kind = some e ∧
          e.uses = some (usesOf player kind + 1)) := by
  constructor
  · intro ht
    have hfind : powerupDefFind "wall_builder" = some ⟨"wall_builder", 0⟩ := by decide
    simp only [collectPowerup, hpu, hp, ht, hfind]
    norm_num [updPlayer]
    refine ⟨_, alookup_aset_self _ _ _, _, alookup_aset_self _ _ _, rfl⟩
  · rintro kind (hk | hk | hk) ht <;> subst hk
    · have hfind : powerupDefFind "mega_bomb" = some ⟨"mega_bomb", 0⟩ := by decide
      simp only [collectPowerup, hpu, hp, ht, hfind]
      norm_num [updPlayer]
      refine ⟨_, alookup_aset_self _ _ _, _, alookup_aset_self _ _ _, ?_⟩
      simp [usesOf]
    · have hfind : powerupDefFind "tornado_bomb" = some ⟨"tornado_bomb", 0⟩ := by
        decide
      simp only [collectPowerup, hpu, hp, ht, hfind]
      norm_num [updPlayer]
      refine ⟨_, alookup_aset_self _ _ _, _, alookup_aset_self _ _ _, ?_⟩
      simp [usesOf]
    · have hfind : powerupDefFind "teleport" = some ⟨"teleport", 0⟩ := by decide
      simp only [collectPowerup, hpu, hp, ht, hfind]
      norm_num [updPlayer]
      refine ⟨_, alookup_aset_self _ _ _, _, alookup_aset_self _ _ _, ?_⟩
      simp [usesOf]

def c9World : World :=
  { emptyWorld with
    powerups := [((3, 3), ⟨3, 3, "wall_builder", 0⟩)],
    players := [("p1", ⟨"p1", 3, 3, "", true, 5,
      [("wall_builder", ⟨some 1, true, none⟩)]⟩)] }

theorem c9_counted_collection_witness :
    alookup c9World.powerups (3, 3) = some ⟨3, 3, "wall_builder", 0⟩ ∧
    alookup c9World.players "p1"
      = some ⟨"p1", 3, 3, "", true, 5, [("wall_builder", ⟨some 1, true, none⟩)]⟩ ∧
    ((Powerup.type ⟨3, 3, "wall_builder", 0⟩ = "wall_builder" → ∃ p',
        alookup (collectPowerup 0 (fun _ _ => (0, 0)) 0 "p1" 3 3 c9World).1.players "p1"
          = some p' ∧
        ∃ e, alookup p'.powerups "wall_builder" = some e ∧ e.uses = some 3) ∧
      (∀ kind, (kind = "mega_bomb" ∨ kind = "tornado_bomb" ∨ kind = "teleport") →
        Powerup.type ⟨3, 3, "wall_builder", 0⟩ = kind → ∃ p',
          alookup (collectPowerup 0 (fun _ _ => (0, 0)) 0 "p1" 3 3 c9World).1.players "p1"
            = some p' ∧
          ∃ e, alookup p'.powerups kind = some e ∧
            e.uses = some (usesOf
              (⟨"p1", 3, 3, "", true, 5, [("wall_builder", ⟨some 1, true, none⟩)]⟩ :
                Player) kind + 1))) :=
  ⟨by decide, by decide,
    c9_counted_collection 0 (fun _ _ => (0, 0)) 0 "p1" 3 3 c9World
      ⟨3, 3, "wall_builder", 0⟩
      ⟨"p1", 3, 3, "", true, 5, [("wall_builder", ⟨some 1, true, none⟩)]⟩
      (by decide) (by decide)⟩

/-! # Claim C6: blocked moves are silent no-ops -/

/-- C6: a move command by an alive player whose (wrapped) target holds a
wall is a silent no-op when ghost mode is not active; with ghost mode
active, wall occupancy is ignored: a bomb on the target still blocks,
leaving the world unchanged, but a bomb-free target cell is entered (the
player's position becomes the wrapped target) whether or not a wall stands
there — the third conjunct carries no wall hypothesis at all.  (The
pickup/fire-trail/magnet post-move side effects are excluded by the
`none`/inactive premises so the final position is exactly the target.) -/
theorem c6_move_blocked (chooseSwap : Nat) (scrR : String → Nat → Nat × Nat)
    (now : Int) (pid : String) (x y : Int) (w : World) (player : Player)
    (hp : alookup w.players pid = some player) (halive : player.alive = true) :
    (effActive player "ghost_mode" = false →
      (alookup w.walls (wrapCoordinate x COLS, wrapCoordinate y ROWS)).isSome = true →
      moveCmd chooseSwap scrR now pid x y w = w) ∧
    (effActive player "ghost_mode" = true →
      (alookup w.bombs (wrapCoordinate x COLS, wrapCoordinate y ROWS)).isSome = true →
      moveCmd chooseSwap scrR now pid x y w = w) ∧
    (effActive player "ghost_mode" = true →
      alookup w.bombs (wrapCoordinate x COLS, wrapCoordinate y ROWS) = none →
      alookup w.powerups (wrapCoordinate x COLS, wrapCoordinate y ROWS) = none →
      alookup w.fireTrails (wrapCoordinate x COLS, wrapCoordinate y ROWS) = none →
      effActive player "magnet" = false →
      alookup (moveCmd chooseSwap scrR now pid x y w).players pid =
        some { player with
          x := wrapCoordinate x COLS, y := wrapCoordinate y ROWS }) := by
  refine ⟨?_, ?_, ?_⟩
  · intro hg hw
    simp only [moveCmd, hp, halive, hg, isValidPosition, hw, Bool.not_true,
      Bool.false_and, Bool.if_false_left, Bool.and_false, if_false]
    simp
  · intro hg hb
    simp only [moveCmd, hp, halive, hg, hb, Bool.not_true, if_true]
    simp
  · intro hg hnb hnp hnt hnm
    have hghost : (if effActive player "ghost_mode" = true then
        !(alookup w.bombs (wrapCoordinate x COLS, wrapCoordinate y ROWS)).isSome
      else isValidPosition x y w) = true := by
      rw [if_pos hg, hnb]
      rfl
    have hcollect : ∀ w' : World,
        alookup w'.powerups (wrapCoordinate x COLS, wrapCoordinate y ROWS) = none →
        collectPowerup chooseSwap scrR now pid (wrapCoordinate x COLS)
          (wrapCoordinate y ROWS) w' = (w', false) := by
      intro w' h
      simp [collectPowerup, h]
    have htrailft : ∀ q : Pos, q = (wrapCoordinate x COLS, wrapCoordinate y ROWS) →
        alookup (moveTrail now pid player w).fireTrails q = none ∨
        alookup (moveTrail now pid player w).fireTrails q =
          some ⟨player.x, player.y, now, pid⟩ := by
      intro q hq
      unfold moveTrail
      by_cases hft : effActive player "fire_trail" = true
      · rw [if_pos hft]
        by_cases hpos : ((player.x, player.y) : Pos) = q
        · right
          rw [← hpos]
          exact alookup_aset_self _ _ _
        · left
          rw [show alookup
              (aset w.fireTrails (player.x, player.y) ⟨player.x, player.y, now, pid⟩) q
              = alookup w.fireTrails q from alookup_aset_ne _ _ _ _ hpos, hq]
          exact hnt
      · rw [if_neg hft]
        left
        rw [hq]
        exact hnt
    have hnotalive : (!player.alive) = false := by rw [halive]; rfl
    simp only [moveCmd, hp, hnotalive, Bool.false_eq_true, if_false, hghost, if_true]
    rw [show moveMagnet player (wrapCoordinate x COLS) (wrapCoordinate y ROWS)
        (updPlayer pid
          { player with x := wrapCoordinate x COLS, y := wrapCoordinate y ROWS }
          (moveTrail now pid player w)) =
        updPlayer pid
          { player with x := wrapCoordinate x COLS, y := wrapCoordinate y ROWS }
          (moveTrail now pid player w) by
      unfold moveMagnet
      rw [hnm]
      simp]
    rw [hcollect _ (by
      show alookup (moveTrail now pid player w).powerups
        (wrapCoordinate x COLS, wrapCoordinate y ROWS) = none
      unfold moveTrail
      split <;> exact hnp)]
    unfold moveFireTrailHit
    rcases htrailft (wrapCoordinate x COLS, wrapCoordinate y ROWS) rfl with hft | hft
    · rw [show alookup (updPlayer pid
          { player with x := wrapCoordinate x COLS, y := wrapCoordinate y ROWS }
          (moveTrail now pid player w)).fireTrails
          (wrapCoordinate x COLS, wrapCoordinate y ROWS) = none from hft]
      exact alookup_aset_self _ _ _
    · rw [show alookup (updPlayer pid
          { player with x := wrapCoordinate x COLS, y := wrapCoordinate y ROWS }
          (moveTrail now pid player w)).fireTrails
          (wrapCoordinate x COLS, wrapCoordinate y ROWS) =
          some ⟨player.x, player.y, now, pid⟩ from hft]
      simp only [ne_eq, eq_self_iff_true, not_true_eq_false, Bool.false_eq_true, if_false]
      exact alookup_aset_self _ _ _

def c6World : World :=
  { emptyWorld with
    players := [("p1", ⟨"p1", 2, 2, "", true, 5, []⟩)],
    walls := [((3, 2), ⟨3, 2, true⟩)] }

def c6GhostWorld : World :=
  { emptyWorld with
    players := [("p1",
      ⟨"p1", 2, 2, "", true, 5, [("ghost_mode", ⟨none, true, none⟩)]⟩)],
    walls := [((3, 2), ⟨3, 2, true⟩)] }

/-- Witness for C6, instantiated twice: in `c6World` a ghost-less player is
blocked by the wall at (3, 2); in `c6GhostWorld` a ghost-mode player moving
onto the very same wall cell — bomb-free — goes through, ending at (3, 2). -/
theorem c6_move_blocked_witness :
    (alookup c6World.players "p1" = some ⟨"p1", 2, 2, "", true, 5, []⟩ ∧
     Player.alive ⟨"p1", 2, 2, "", true, 5, []⟩ = true ∧
     (effActive ⟨"p1", 2, 2, "", true, 5, []⟩ "ghost_mode" = false →
       (alookup c6World.walls
         (wrapCoordinate 3 COLS, wrapCoordinate 2 ROWS)).isSome = true →
       moveCmd 0 (fun _ _ => (0, 0)) 0 "p1" 3 2 c6World = c6World)) ∧
    (alookup c6GhostWorld.players "p1" =
       some ⟨"p1", 2, 2, "", true, 5, [("ghost_mode", ⟨none, true, none⟩)]⟩ ∧
     (alookup c6GhostWorld.walls
       (wrapCoordinate 3 COLS, wrapCoordinate 2 ROWS)).isSome = true ∧
     (effActive ⟨"p1", 2, 2, "", true, 5,
         [("ghost_mode", ⟨none, true, none⟩)]⟩ "ghost_mode" = true →
      alookup c6GhostWorld.bombs (wrapCoordinate 3 COLS, wrapCoordinate 2 ROWS) = none →
      alookup c6GhostWorld.powerups
        (wrapCoordinate 3 COLS, wrapCoordinate 2 ROWS) = none →
      alookup c6GhostWorld.fireTrails
        (wrapCoordinate 3 COLS, wrapCoordinate 2 ROWS) = none →
      effActive ⟨"p1", 2, 2, "", true, 5,
        [("ghost_mode", ⟨none, true, none⟩)]⟩ "magnet" = false →
      alookup (moveCmd 0 (fun _ _ => (0, 0)) 0 "p1" 3 2 c6GhostWorld).players "p1" =
        some ⟨"p1", wrapCoordinate 3 COLS, wrapCoordinate 2 ROWS, "", true, 5,
          [("ghost_mode", ⟨none, true, none⟩)]⟩)) :=
  ⟨⟨by decide, by decide,
    (c6_move_blocked 0 (fun _ _ => (0, 0)) 0 "p1" 3 2 c6World
      ⟨"p1", 2, 2, "", true, 5, []⟩ (by decide) (by decide)).1⟩,
   ⟨by decide, by decide,
    (c6_move_blocked 0 (fun _ _ => (0, 0)) 0 "p1" 3 2 c6GhostWorld
      ⟨"p1", 2, 2, "", true, 5, [("ghost_mode", ⟨none, true, none⟩)]⟩
      (by decide) (by decide)).2.2⟩⟩

/-! # Claim C10: move validation checks only walls and bombs -/

/-- C10: for an alive, identified player moving to a wall-free and bomb-free
(wrapped) target, validation passes and the player's position becomes the
wrapped target, with no constraint on the distance moved and none on other
players occupying the target.  (The post-move pickup/fire-trail/magnet side
effects are excluded by the `none`/inactive hypotheses so that the final
position is exactly the target; they are separate concerns from
validation, which reads only walls and bombs.) -/
theorem c10_move_validation (chooseSwap : Nat) (scrR : String → Nat → Nat × Nat)
    (now : Int) (pid : String) (x y : Int) (w : World) (player : Player)
    (hp : alookup w.players pid = some player) (halive : player.alive = true)
    (hnw : alookup w.walls (wrapCoordinate x COLS, wrapCoordinate y ROWS) = none)
    (hnb : alookup w.bombs (wrapCoordinate x COLS, wrapCoordinate y ROWS) = none)
    (hnp : alookup w.powerups (wrapCoordinate x COLS, wrapCoordinate y ROWS) = none)
    (hnt : alookup w.fireTrails (wrapCoordinate x COLS, wrapCoordinate y ROWS) = none)
    (hnm : effActive player "magnet" = false) :
    isValidPosition x y w = true ∧
    alookup (moveCmd chooseSwap scrR now pid x y w).players pid =
      some { player with x := wrapCoordinate x COLS, y := wrapCoordinate y ROWS } := by
  have hvalid : isValidPosition x y w = true := by
    simp [isValidPosition, hnw, hnb]
  refine ⟨hvalid, ?_⟩
  have hghost : (if effActive player "ghost_mode" = true then
      !(alookup w.bombs (wrapCoordinate x COLS, wrapCoordinate y ROWS)).isSome
    else isValidPosition x y w) = true := by
    cases hg : effActive player "ghost_mode" <;> simp [hnb, hvalid]
  have hcollect : ∀ w' : World,
      alookup w'.powerups (wrapCoordinate x COLS, wrapCoordinate y ROWS) = none →
      collectPowerup chooseSwap scrR now pid (wrapCoordinate x COLS)
        (wrapCoordinate y ROWS) w' = (w', false) := by
    intro w' h
    simp [collectPowerup, h]
  have htrailft : ∀ q : Pos, q = (wrapCoordinate x COLS, wrapCoordinate y ROWS) →
      alookup (moveTrail now pid player w).fireTrails q = none ∨
      alookup (moveTrail now pid player w).fireTrails q =
        some ⟨player.x, player.y, now, pid⟩ := by
    intro q hq
    unfold moveTrail
    by_cases hft : effActive player "fire_trail" = true
    · rw [if_pos hft]
      by_cases hpos : ((player.x, player.y) : Pos) = q
      · right
        rw [← hpos]
        exact alookup_aset_self _ _ _
      · left
        rw [show alookup
            (aset w.fireTrails (player.x, player.y) ⟨player.x, player.y, now, pid⟩) q
            = alookup w.fireTrails q from alookup_aset_ne _ _ _ _ hpos, hq]
        exact hnt
    · rw [if_neg hft]
      left
      rw [hq]
      exact hnt
  have hnotalive : (!player.alive) = false := by rw [halive]; rfl
  simp only [moveCmd, hp, hnotalive, Bool.false_eq_true, if_false, hghost, if_true]
  rw [show moveMagnet player (wrapCoordinate x COLS) (wrapCoordinate y ROWS)
      (updPlayer pid
        { player with x := wrapCoordinate x COLS, y := wrapCoordinate y ROWS }
        (moveTrail now pid player w)) =
      updPlayer pid
        { player with x := wrapCoordinate x COLS, y := wrapCoordinate y ROWS }
        (moveTrail now pid player w) by
    unfold moveMagnet
    rw [hnm]
    simp]
  rw [hcollect _ (by
    show alookup (moveTrail now pid player w).powerups
      (wrapCoordinate x COLS, wrapCoordinate y ROWS) = none
    unfold moveTrail
    split <;> exact hnp)]
  unfold moveFireTrailHit
  rcases htrailft (wrapCoordinate x COLS, wrapCoordinate y ROWS) rfl with hft | hft
  · rw [show alookup (updPlayer pid
        { player with x := wrapCoordinate x COLS, y := wrapCoordinate y ROWS }
        (moveTrail now pid player w)).fireTrails
        (wrapCoordinate x COLS, wrapCoordinate y ROWS) = none from hft]
    exact alookup_aset_self _ _ _
  · rw [show alookup (updPlayer pid
        { player with x := wrapCoordinate x COLS, y := wrapCoordinate y ROWS }
        (moveTrail now pid player w)).fireTrails
        (wrapCoordinate x COLS, wrapCoordinate y ROWS) =
        some ⟨player.x, player.y, now, pid⟩ from hft]
    simp only [ne_eq, eq_self_iff_true, not_true_eq_false, Bool.false_eq_true, if_false]
    exact alookup_aset_self _ _ _

def c10World : World :=
  { emptyWorld with
    players := [("p1", ⟨"p1", 2, 3, "", true, 5, []⟩),
                ("p2", ⟨"p2", 17, 9, "", true, 5, []⟩)] }

/-- Witness for C10: a move across the whole grid onto a cell already
occupied by another alive player succeeds; afterwards both alive players
stand on (17, 9). -/
theorem c10_move_validation_witness :
    alookup c10World.players "p1" = some ⟨"p1", 2, 3, "", true, 5, []⟩ ∧
    Player.alive ⟨"p1", 2, 3, "", true, 5, []⟩ = true ∧
    alookup c10World.walls (wrapCoordinate 17 COLS, wrapCoordinate 9 ROWS) = none ∧
    alookup c10World.bombs (wrapCoordinate 17 COLS, wrapCoordinate 9 ROWS) = none ∧
    alookup c10World.powerups (wrapCoordinate 17 COLS, wrapCoordinate 9 ROWS) = none ∧
    alookup c10World.fireTrails (wrapCoordinate 17 COLS, wrapCoordinate 9 ROWS) = none ∧
    effActive ⟨"p1", 2, 3, "", true, 5, []⟩ "magnet" = false ∧
    (isValidPosition 17 9 c10World = true ∧
      alookup (moveCmd 0 (fun _ _ => (0, 0)) 0 "p1" 17 9 c10World).players "p1" =
        some ⟨"p1", wrapCoordinate 17 COLS, wrapCoordinate 9 ROWS, "", true, 5, []⟩) ∧
    alookup (moveCmd 0 (fun _ _ => (0, 0)) 0 "p1" 17 9 c10World).players "p2" =
      some ⟨"p2", 17, 9, "", true, 5, []⟩ ∧
    wrapCoordinate 17 COLS = 17 ∧ wrapCoordinate 9 ROWS = 9 :=
  ⟨by decide, by decide, by decide, by decide, by decide, by decide, by decide,
    c10_move_validation 0 (fun _ _ => (0, 0)) 0 "p1" 17 9 c10World
      ⟨"p1", 2, 3, "", true, 5, []⟩ (by decide) (by decide) (by decide) (by decide)
      (by decide) (by decide) (by decide),
    by decide, by decide, by decide⟩

/-! # Claim C3: collision resolution -/

theorem cpecGo_shape (walls : List (Pos × Wall)) (ps : List Pos) :
    ∀ (rest done : List (String × Player)),
      ∃ tl, cpecGo walls ps done rest = done ++ tl ∧
        tl.map Prod.fst = rest.map Prod.fst := by
  intro rest
  induction rest with
  | nil => intro done; exact ⟨[], by simp [cpecGo], rfl⟩
  | cons e rest ih =>
    intro done
    obtain ⟨pid, p⟩ := e
    obtain ⟨tl, h1, h2⟩ := ih (done ++ [(pid, cpecStep walls ps done rest pid p)])
    refine ⟨(pid, cpecStep walls ps done rest pid p) :: tl, ?_, ?_⟩
    · rw [cpecGo, h1, List.append_assoc]
      rfl
    · simp [h2]

theorem cpecGo_split (walls : List (Pos × Wall)) (ps : List Pos) :
    ∀ (pre done post : List (String × Player)) (pid : String) (p : Player),
      ∃ done', done'.map Prod.fst = done.map Prod.fst ++ pre.map Prod.fst ∧
        cpecGo walls ps done (pre ++ (pid, p) :: post) =
          cpecGo walls ps done' ((pid, p) :: post) := by
  intro pre
  induction pre with
  | nil => intro done post pid p; exact ⟨done, by simp, rfl⟩
  | cons e pre ih =>
    intro done post pid p
    obtain ⟨qid, q⟩ := e
    obtain ⟨done', hk, heq⟩ :=
      ih (done ++ [(qid, cpecStep walls ps done (pre ++ (pid, p) :: post) qid q)])
        post pid p
    refine ⟨done', ?_, ?_⟩
    · rw [hk]; simp
    · rw [List.cons_append, cpecGo]
      exact heq

/-- C3: in a collision resolution over a list of lethal cells, an alive
player on a listed cell with an active force field is left fully unchanged
(no damage, the field is not consumed); an alive player on a listed cell
without it loses exactly one life, keeping its effects; with lives still
positive the player is relocated to a spawn position freshly computed by
`getSpawnPosition` against a same-population mid-iteration player map and
stays alive; at zero lives the `alive` flag is cleared; in every case the
player record is kept. -/
theorem c3_collision_resolution (explosionPositions : List Pos) (w : World)
    (pre post : List (String × Player)) (pid : String) (p : Player)
    (hw : w.players = pre ++ (pid, p) :: post)
    (hpre : pid ∉ pre.map Prod.fst) (hpost : pid ∉ post.map Prod.fst) :
    ∃ p', alookup (checkPlayerExplosionCollisions explosionPositions w).players pid
        = some p' ∧
      (p.alive = false → p' = p) ∧
      ((p.x, p.y) ∉ explosionPositions → p' = p) ∧
      (p.alive = true → (p.x, p.y) ∈ explosionPositions →
        effActive p "force_field" = true → p' = p) ∧
      (p.alive = true → (p.x, p.y) ∈ explosionPositions →
        effActive p "force_field" = false →
          p'.lives = p.lives - 1 ∧ p'.powerups = p.powerups ∧
          (0 < p.lives - 1 → p'.alive = true ∧
            ∃ mid, mid.map Prod.fst = w.players.map Prod.fst ∧
              (p'.x, p'.y) = getSpawnPosition mid w.walls) ∧
          (p.lives - 1 ≤ 0 → p'.alive = false)) := by
  unfold checkPlayerExplosionCollisions
  rw [hw]
  obtain ⟨done', hk, heq⟩ := cpecGo_split w.walls explosionPositions pre [] post pid p
  rw [heq, cpecGo]
  obtain ⟨tl, h1, h2⟩ :=
    cpecGo_shape w.walls explosionPositions post
      (done' ++ [(pid, cpecStep w.walls explosionPositions done' post pid p)])
  rw [h1]
  have hdone' : alookup done' pid = none := by
    apply alookup_eq_none_of_not_mem_keys
    rw [hk]; simpa using hpre
  have hlook :
      alookup ((done' ++ [(pid, cpecStep w.walls explosionPositions done' post pid p)])
          ++ tl) pid
        = some (cpecStep w.walls explosionPositions done' post pid p) := by
    rw [List.append_assoc, alookup_append_right hdone']
    simp [alookup_cons]
  refine ⟨cpecStep w.walls explosionPositions done' post pid p, hlook, ?_, ?_, ?_, ?_⟩
  · intro h
    simp [cpecStep, h]
  · intro h
    cases ha : p.alive <;> simp [cpecStep, ha, h]
  · intro ha hmem hff
    simp [cpecStep, ha, hmem, hff]
  · intro ha hmem hff
    by_cases hl : 0 < p.lives - 1
    · simp only [cpecStep, ha, Bool.not_true, if_false, hmem, if_true, hff,
        Bool.false_eq_true, hl]
      refine ⟨by trivial, by trivial, fun _ => ⟨by trivial, ?_⟩,
        fun hc => absurd hc (by omega)⟩
      refine ⟨done' ++ (pid, { p with alive := true, lives := p.lives - 1 }) :: post,
        ?_, by trivial⟩
      simp [hk]
    · simp only [cpecStep, ha, Bool.not_true, if_false, hmem, if_true, hff,
        Bool.false_eq_true, hl]
      exact ⟨by trivial, by trivial, fun hc => hc.elim, fun _ => by trivial⟩

def c3World : World :=
  { emptyWorld with players := [("p1", ⟨"p1", 5, 5, "", true, 2, []⟩)] }

theorem c3_collision_resolution_witness :
    c3World.players = [] ++ ("p1", (⟨"p1", 5, 5, "", true, 2, []⟩ : Player)) :: [] ∧
    "p1" ∉ List.map Prod.fst ([] : List (String × Player)) ∧
    "p1" ∉ List.map Prod.fst ([] : List (String × Player)) ∧
    (∃ p', alookup (checkPlayerExplosionCollisions [(5, 5)] c3World).players "p1"
        = some p' ∧
      (Player.alive ⟨"p1", 5, 5, "", true, 2, []⟩ = false →
        p' = ⟨"p1", 5, 5, "", true, 2, []⟩) ∧
      ((Player.x ⟨"p1", 5, 5, "", true, 2, []⟩, Player.y ⟨"p1", 5, 5, "", true, 2, []⟩)
          ∉ [((5 : Int), (5 : Int))] → p' = ⟨"p1", 5, 5, "", true, 2, []⟩) ∧
      (Player.alive ⟨"p1", 5, 5, "", true, 2, []⟩ = true →
        (Player.x ⟨"p1", 5, 5, "", true, 2, []⟩, Player.y ⟨"p1", 5, 5, "", true, 2, []⟩)
          ∈ [((5 : Int), (5 : Int))] →
        effActive ⟨"p1", 5, 5, "", true, 2, []⟩ "force_field" = true →
        p' = ⟨"p1", 5, 5, "", true, 2, []⟩) ∧
      (Player.alive ⟨"p1", 5, 5, "", true, 2, []⟩ = true →
        (Player.x ⟨"p1", 5, 5, "", true, 2, []⟩, Player.y ⟨"p1", 5, 5, "", true, 2, []⟩)
          ∈ [((5 : Int), (5 : Int))] →
        effActive ⟨"p1", 5, 5, "", true, 2, []⟩ "force_field" = false →
          p'.lives = Player.lives ⟨"p1", 5, 5, "", true, 2, []⟩ - 1 ∧
          p'.powerups = Player.powerups ⟨"p1", 5, 5, "", true, 2, []⟩ ∧
          (0 < Player.lives ⟨"p1", 5, 5, "", true, 2, []⟩ - 1 → p'.alive = true ∧
            ∃ mid, mid.map Prod.fst = c3World.players.map Prod.fst ∧
              (p'.x, p'.y) = getSpawnPosition mid c3World.walls) ∧
          (Player.lives ⟨"p1", 5, 5, "", true, 2, []⟩ - 1 ≤ 0 → p'.alive = false))) :=
  ⟨rfl, by simp, by simp,
    c3_collision_resolution [(5, 5)] c3World [] [] "p1"
      ⟨"p1", 5, 5, "", true, 2, []⟩ rfl (by simp) (by simp)⟩

/-! # Claim C2: tornado explosions -/

theorem tornadoGo_positions (pick : Int → Int → Nat) (now : Int) (bomb : Bomb) :
    ∀ (offs : List (Int × Int)) (w : World),
      (tornadoGo pick now bomb offs w).1 = offs.map (spiralCell bomb) := by
  intro offs
  induction offs with
  | nil => intro w; rfl
  | cons d offs ih => intro w; simp only [tornadoGo, ih, List.map_cons]

theorem tornadoGo_players (pick : Int → Int → Nat) (now : Int) (bomb : Bomb) :
    ∀ (offs : List (Int × Int)) (w : World),
      (tornadoGo pick now bomb offs w).2.players = w.players := by
  intro offs
  induction offs with
  | nil => intro w; rfl
  | cons d offs ih =>
    intro w
    simp only [tornadoGo]
    rcases hw : alookup w.walls (spiralCell bomb d) with _ | wall
    · simp only [hw]
      exact ih _
    · by_cases hd : wall.destructible
      · simp only [hw, hd, if_true]
        rw [ih]
        rfl
      · simp only [hw, hd, if_false]
        exact ih _

theorem tornadoGo_walls_mono (pick : Int → Int → Nat) (now : Int) (bomb : Bomb) :
    ∀ (offs : List (Int × Int)) (w : World) (q : Pos),
      alookup (tornadoGo pick now bomb offs w).2.walls q = alookup w.walls q ∨
        alookup (tornadoGo pick now bomb offs w).2.walls q = none := by
  intro offs
  induction offs with
  | nil => intro w q; exact Or.inl rfl
  | cons d offs ih =>
    intro w q
    simp only [tornadoGo]
    rcases hw : alookup w.walls (spiralCell bomb d) with _ | wall
    · simp only [hw]
      exact ih _ q
    · by_cases hd : wall.destructible
      · simp only [hw, hd, if_true]
        rcases ih (spawnPowerup pick now (spiralCell bomb d).1 (spiralCell bomb d).2
            { players := w.players, bombs := w.bombs,
              explosions := aset w.explosions (spiralCell bomb d)
                ⟨(spiralCell bomb d).1, (spiralCell bomb d).2, now⟩,
              walls := aremove w.walls (spiralCell bomb d),
              powerups := w.powerups, fireTrails := w.fireTrails }) q with h | h
        · rw [h]
          simp only [spawnPowerup]
          by_cases hq : spiralCell bomb d = q
          · rw [← hq]
            exact Or.inr (alookup_aremove_self _ _)
          · rw [alookup_aremove_ne _ _ _ hq]
            exact Or.inl rfl
        · exact Or.inr h
      · simp only [hw, hd, if_false]
        exact ih _ q

theorem tornadoGo_powerups_mono (pick : Int → Int → Nat) (now : Int) (bomb : Bomb) :
    ∀ (offs : List (Int × Int)) (w : World) (q : Pos),
      (alookup w.powerups q).isSome = true →
        (alookup (tornadoGo pick now bomb offs w).2.powerups q).isSome = true := by
  intro offs
  induction offs with
  | nil => intro w q h; exact h
  | cons d offs ih =>
    intro w q h
    simp only [tornadoGo]
    rcases hw : alookup w.walls (spiralCell bomb d) with _ | wall
    · simp only [hw]
      exact ih _ q h
    · by_cases hd : wall.destructible
      · simp only [hw, hd, if_true]
        apply ih
        simp only [spawnPowerup]
        exact alookup_isSome_aset _ _ _ _ h
      · simp only [hw, hd, if_false]
        exact ih _ q h

theorem tornadoGo_destroys (pick : Int → Int → Nat) (now : Int) (bomb : Bomb) :
    ∀ (offs : List (Int × Int)) (w : World) (q : Pos) (wall : Wall),
      q ∈ offs.map (spiralCell bomb) → alookup w.walls q = some wall →
        wall.destructible = true →
        alookup (tornadoGo pick now bomb offs w).2.walls q = none ∧
          (alookup (tornadoGo pick now bomb offs w).2.powerups q).isSome = true := by
  intro offs
  induction offs with
  | nil => intro w q wall hq; simp at hq
  | cons d offs ih =>
    intro w q wall hq hwall hd
    by_cases hqc : q = spiralCell bomb d
    · simp only [tornadoGo]
      rw [← hqc, hwall]
      simp only [hd, if_true]
      constructor
      · rcases tornadoGo_walls_mono pick now bomb offs _ q with h | h
        · rw [h]
          simp only [spawnPowerup]
          conv_lhs => rw [hqc]
          exact alookup_aremove_self _ _
        · exact h
      · apply tornadoGo_powerups_mono
        simp only [spawnPowerup]
        rw [hqc]
        rw [show ((spiralCell bomb d) : Pos) =
          ((spiralCell bomb d).1, (spiralCell bomb d).2) from rfl]
        rw [alookup_aset_self]
        rfl
    · have hq' : q ∈ offs.map (spiralCell bomb) := by
        rcases List.mem_cons.mp (by simpa using hq :
            q ∈ spiralCell bomb d :: offs.map (spiralCell bomb)) with h | h
        · exact absurd h hqc
        · exact h
      simp only [tornadoGo]
      rcases hw : alookup w.walls (spiralCell bomb d) with _ | wall'
      · simp only [hw]
        exact ih _ q wall hq' hwall hd
      · by_cases hd' : wall'.destructible
        · simp only [hw, hd', if_true]
          apply ih _ _ wall hq' _ hd
          simp only [spawnPowerup]
          rw [alookup_aremove_ne _ _ _ (fun hh => hqc hh.symm)]
          exact hwall
        · simp only [hw, hd', if_false]
          exact ih _ q wall hq' hwall hd

theorem spiral_bounds :
    ∀ d ∈ spiralPattern, -3 ≤ d.1 ∧ d.1 ≤ 3 ∧ -3 ≤ d.2 ∧ d.2 ≤ 3 := by decide

theorem spiral_nodup : spiralPattern.Nodup := by decide

theorem spiral_no_zero : ((0, 0) : Int × Int) ∉ spiralPattern := by decide

theorem spiralCell_inj (bomb : Bomb) :
    ∀ d1 ∈ spiralPattern, ∀ d2 ∈ spiralPattern,
      spiralCell bomb d1 = spiralCell bomb d2 → d1 = d2 := by
  intro d1 h1 d2 h2 heq
  obtain ⟨b11, b12, b13, b14⟩ := spiral_bounds d1 h1
  obtain ⟨b21, b22, b23, b24⟩ := spiral_bounds d2 h2
  simp only [spiralCell, Prod.mk.injEq] at heq
  obtain ⟨hx, hy⟩ := heq
  rw [wrapCoordinate_eq_emod _ _ (by decide), wrapCoordinate_eq_emod _ _ (by decide),
    COLS_eq] at hx
  rw [wrapCoordinate_eq_emod _ _ (by decide), wrapCoordinate_eq_emod _ _ (by decide),
    ROWS_eq] at hy
  have e1 : d1.1 = d2.1 := by omega
  have e2 : d1.2 = d2.2 := by omega
  exact Prod.ext e1 e2

/-- C2: a tornado detonation produces exactly the bomb cell plus the 40
wrapped spiral offsets, independently of walls — `1 + 40` distinct cells;
every visited offset cell holding a destructible wall has that wall removed
and a power-up spawned there. -/
theorem c2_tornado_explosion (pick : Int → Int → Nat) (now : Int) (bomb : Bomb)
    (w : World) (hty : bomb.type = "tornado")
    (hx1 : 0 ≤ bomb.x) (hx2 : bomb.x < COLS) (hy1 : 0 ≤ bomb.y) (hy2 : bomb.y < ROWS) :
    (explodeBomb pick now bomb w).2 =
      (bomb.x, bomb.y) :: spiralPattern.map (spiralCell bomb) ∧
    (explodeBomb pick now bomb w).2.length = 1 + 40 ∧
    (explodeBomb pick now bomb w).2.Nodup ∧
    (∀ d ∈ spiralPattern, ∀ wall,
      alookup w.walls (spiralCell bomb d) = some wall → wall.destructible = true →
        alookup (explodeBomb pick now bomb w).1.walls (spiralCell bomb d) = none ∧
        (alookup (explodeBomb pick now bomb w).1.powerups (spiralCell bomb d)).isSome
          = true) := by
  have hpos : (explodeBomb pick now bomb w).2 =
      (bomb.x, bomb.y) :: spiralPattern.map (spiralCell bomb) := by
    simp only [explodeBomb, hty, if_pos, createTornadoExplosion, tornadoGo_positions]
  have hcenter : ((bomb.x, bomb.y) : Pos) ∉ spiralPattern.map (spiralCell bomb) := by
    intro hm
    obtain ⟨d, hd, heq⟩ := List.mem_map.mp hm
    obtain ⟨b1, b2, b3, b4⟩ := spiral_bounds d hd
    simp only [spiralCell, Prod.mk.injEq] at heq
    obtain ⟨hxx, hyy⟩ := heq
    rw [wrapCoordinate_eq_emod _ _ (by decide), COLS_eq] at hxx
    rw [wrapCoordinate_eq_emod _ _ (by decide), ROWS_eq] at hyy
    rw [COLS_eq] at hx2
    rw [ROWS_eq] at hy2
    have hd1 : d.1 = 0 := by omega
    have hd2 : d.2 = 0 := by omega
    apply spiral_no_zero
    have : d = ((0, 0) : Int × Int) := Prod.ext hd1 hd2
    rwa [← this]
  refine ⟨hpos, ?_, ?_, ?_⟩
  · rw [hpos]
    simp [spiralPattern]
  · rw [hpos]
    exact List.Nodup.cons hcenter (spiral_nodup.map_on (spiralCell_inj bomb))
  · intro d hd wall hwall hdes
    have hq : spiralCell bomb d ∈ spiralPattern.map (spiralCell bomb) :=
      List.mem_map_of_mem _ hd
    have hstep := tornadoGo_destroys pick now bomb spiralPattern
      { w with explosions := aset w.explosions (bomb.x, bomb.y) ⟨bomb.x, bomb.y, now⟩ }
      (spiralCell bomb d) wall hq hwall hdes
    simp only [explodeBomb, hty, if_pos, createTornadoExplosion,
      checkPlayerExplosionCollisions]
    exact hstep

def c2Bomb : Bomb :=
  { id := "b", x := 5, y := 5, timer := 3000, range := 3, type := "tornado",
    playerId := "p" }

def c2World : World := { emptyWorld with walls := [((5, 6), ⟨5, 6, true⟩)] }

theorem c2_tornado_explosion_witness :
    Bomb.type c2Bomb = "tornado" ∧
    0 ≤ Bomb.x c2Bomb ∧ Bomb.x c2Bomb < COLS ∧
    0 ≤ Bomb.y c2Bomb ∧ Bomb.y c2Bomb < ROWS ∧
    ((explodeBomb (fun _ _ => 0) 0 c2Bomb c2World).2 =
        (Bomb.x c2Bomb, Bomb.y c2Bomb) :: spiralPattern.map (spiralCell c2Bomb) ∧
      (explodeBomb (fun _ _ => 0) 0 c2Bomb c2World).2.length = 1 + 40 ∧
      (explodeBomb (fun _ _ => 0) 0 c2Bomb c2World).2.Nodup ∧
      (∀ d ∈ spiralPattern, ∀ wall,
        alookup c2World.walls (spiralCell c2Bomb d) = some wall →
          wall.destructible = true →
          alookup (explodeBomb (fun _ _ => 0) 0 c2Bomb c2World).1.walls
            (spiralCell c2Bomb d) = none ∧
          (alookup (explodeBomb (fun _ _ => 0) 0 c2Bomb c2World).1.powerups
            (spiralCell c2Bomb d)).isSome = true)) ∧
    alookup (explodeBomb (fun _ _ => 0) 0 c2Bomb c2World).1.walls (5, 6) = none ∧
    (alookup (explodeBomb (fun _ _ => 0) 0 c2Bomb c2World).1.powerups (5, 6)).isSome
      = true :=
  ⟨by decide, by decide, by decide, by decide, by decide,
    c2_tornado_explosion (fun _ _ => 0) 0 c2Bomb c2World (by decide) (by decide)
      (by decide) (by decide) (by decide),
    by decide, by decide⟩

/-! # Claim C1: normal explosions

The specification-side definitions below state the claim's reading of the
normal pattern: for each direction independently, walk outward from the
bomb, truncating at — and including — the first walled cell, all four rays
evaluated against the pre-detonation wall map.  The claim is settled by
proving the source's threaded computation equal to this. -/

/-- The wrapped cell `i` steps from the bomb in direction `(dx, dy)`. -/
def rayCell (bomb : Bomb) (dx dy : Int) (i : Nat) : Pos :=
  (wrapCoordinate (bomb.x + dx * (i : Int)) COLS,
   wrapCoordinate (bomb.y + dy * (i : Int)) ROWS)

/-- The untruncated ray: cells at steps `i, i+1, …, i+fuel-1`. -/
def fullRayFrom (bomb : Bomb) (dx dy : Int) (i : Nat) : Nat → List Pos
  | 0 => []
  | fuel + 1 => rayCell bomb dx dy i :: fullRayFrom bomb dx dy (i + 1) fuel

/-- Truncate a list after the first element satisfying `p`, keeping it. -/
def takeThrough (p : Pos → Bool) : List Pos → List Pos
  | [] => []
  | c :: cs => if p c then [c] else c :: takeThrough p cs

/-- Specification ray: truncate at (and include) the first walled cell,
reading only the given wall map. -/
def raySpec (walls : List (Pos × Wall)) (bomb : Bomb) (dx dy : Int) : List Pos :=
  takeThrough (fun c => (alookup walls c).isSome)
    (fullRayFrom bomb dx dy 1 bomb.range.toNat)

/-- Specification explosion set: the bomb cell plus four independently
truncated rays against the pre-detonation wall map. -/
def normalSpecCells (walls : List (Pos × Wall)) (bomb : Bomb) : List Pos :=
  (bomb.x, bomb.y) :: (dirsList.map (fun d => raySpec walls bomb d.1 d.2)).flatten

theorem wrapC (v : Int) : wrapCoordinate v COLS = v % 25 := by
  rw [wrapCoordinate_eq_emod _ _ (by decide), COLS_eq]

theorem wrapR (v : Int) : wrapCoordinate v ROWS = v % 19 := by
  rw [wrapCoordinate_eq_emod _ _ (by decide), ROWS_eq]

theorem takeThrough_congr {p q : Pos → Bool} :
    ∀ l : List Pos, (∀ c ∈ l, p c = q c) → takeThrough p l = takeThrough q l := by
  intro l
  induction l with
  | nil => intro _; rfl
  | cons c cs ih =>
    intro h
    simp only [takeThrough, h c (List.mem_cons_self c cs)]
    by_cases hc : q c = true
    · simp [hc]
    · simp only [Bool.not_eq_true] at hc
      simp only [hc, if_false]
      rw [ih (fun x hx => h x (List.mem_cons_of_mem _ hx))]

theorem takeThrough_no_hit {p : Pos → Bool} :
    ∀ l : List Pos, (∀ c ∈ l, p c = false) → takeThrough p l = l := by
  intro l
  induction l with
  | nil => intro _; rfl
  | cons c cs ih =>
    intro h
    simp only [takeThrough, h c (List.mem_cons_self c cs), Bool.false_eq_true, if_false]
    rw [ih (fun x hx => h x (List.mem_cons_of_mem _ hx))]

theorem fullRayFrom_eq_map (bomb : Bomb) (dx dy : Int) :
    ∀ (fuel i : Nat), fullRayFrom bomb dx dy i fuel =
      (List.range fuel).map (fun k => rayCell bomb dx dy (i + k)) := by
  intro fuel
  induction fuel with
  | zero => intro i; rfl
  | succ fuel ih =>
    intro i
    rw [fullRayFrom, ih (i + 1), List.range_succ_eq_map]
    simp only [List.map_cons, List.map_map, Nat.add_zero]
    congr 1
    apply List.map_congr_left
    intro k _
    simp only [Function.comp_apply]
    congr 1
    omega

theorem fullRayFrom_length (bomb : Bomb) (dx dy : Int) (fuel i : Nat) :
    (fullRayFrom bomb dx dy i fuel).length = fuel := by
  rw [fullRayFrom_eq_map]
  simp

/-- The positions produced by one source ray equal the specification ray
over that world's wall map (within one ray the wall mutation cannot be
observed because the ray stops at the cell it mutates). -/
theorem normalRayGo_positions (pick : Int → Int → Nat) (now : Int) (bomb : Bomb)
    (dx dy : Int) :
    ∀ (fuel i : Nat) (w : World),
      (normalRayGo pick now bomb dx dy fuel i w).1 =
        takeThrough (fun c => (alookup w.walls c).isSome)
          (fullRayFrom bomb dx dy i fuel) := by
  intro fuel
  induction fuel with
  | zero => intro i w; rfl
  | succ fuel ih =>
    intro i w
    simp only [normalRayGo, fullRayFrom, takeThrough, rayCell]
    rcases hw : alookup w.walls (wrapCoordinate (bomb.x + dx * (i : Int)) COLS,
        wrapCoordinate (bomb.y + dy * (i : Int)) ROWS) with _ | wall
    · simp only [hw, Option.isSome_none, Bool.false_eq_true, if_false]
      rw [ih]
    · by_cases hd : wall.destructible <;>
        simp [hw, hd]

/-- A ray leaves the wall map unchanged at every cell off its untruncated
ray. -/
theorem normalRayGo_walls_off (pick : Int → Int → Nat) (now : Int) (bomb : Bomb)
    (dx dy : Int) :
    ∀ (fuel i : Nat) (w : World) (q : Pos), q ∉ fullRayFrom bomb dx dy i fuel →
      alookup (normalRayGo pick now bomb dx dy fuel i w).2.walls q =
        alookup w.walls q := by
  intro fuel
  induction fuel with
  | zero => intro i w q _; rfl
  | succ fuel ih =>
    intro i w q hq
    rw [fullRayFrom] at hq
    simp only [List.mem_cons, not_or] at hq
    obtain ⟨hq1, hq2⟩ := hq
    simp only [normalRayGo, rayCell] at hq1 ⊢
    rcases hw : alookup w.walls (wrapCoordinate (bomb.x + dx * (i : Int)) COLS,
        wrapCoordinate (bomb.y + dy * (i : Int)) ROWS) with _ | wall
    · simp only [hw]
      rw [ih (i + 1) _ q hq2]
    · by_cases hd : wall.destructible
      · simp only [hw, hd, if_true, spawnPowerup]
        rw [alookup_aremove_ne _ _ _ (fun hh => hq1 hh.symm)]
      · simp only [hw, hd, Bool.false_eq_true, if_false]

/-- Composition of the direction fold: with pairwise-disjoint untruncated
rays, the threaded computation produces each direction's specification ray
against the original wall map, and leaves walls off all rays unchanged. -/
theorem normalExplosion_fold (pick : Int → Int → Nat) (now : Int) (bomb : Bomb) :
    ∀ (ds : List (Int × Int)) (w : World) (acc : List Pos),
      List.Pairwise (fun a b => ∀ q ∈ fullRayFrom bomb a.1 a.2 1 bomb.range.toNat,
        q ∉ fullRayFrom bomb b.1 b.2 1 bomb.range.toNat) ds →
      (ds.foldl (fun acc d =>
          let r := normalRayGo pick now bomb d.1 d.2 bomb.range.toNat 1 acc.2
          (acc.1 ++ r.1, r.2)) (acc, w)).1 =
        acc ++ (ds.map (fun d => raySpec w.walls bomb d.1 d.2)).flatten ∧
      (∀ q, (∀ d ∈ ds, q ∉ fullRayFrom bomb d.1 d.2 1 bomb.range.toNat) →
        alookup ((ds.foldl (fun acc d =>
          let r := normalRayGo pick now bomb d.1 d.2 bomb.range.toNat 1 acc.2
          (acc.1 ++ r.1, r.2)) (acc, w)).2).walls q = alookup w.walls q) := by
  intro ds
  induction ds with
  | nil => intro w acc _; exact ⟨by simp, fun q _ => rfl⟩
  | cons d ds ih =>
    intro w acc hpw
    rw [List.pairwise_cons] at hpw
    obtain ⟨hd, hpw'⟩ := hpw
    simp only [List.foldl_cons]
    obtain ⟨ih1, ih2⟩ := ih (normalRayGo pick now bomb d.1 d.2 bomb.range.toNat 1 w).2
      (acc ++ (normalRayGo pick now bomb d.1 d.2 bomb.range.toNat 1 w).1) hpw'
    have hkey : ∀ d' ∈ ds,
        raySpec (normalRayGo pick now bomb d.1 d.2 bomb.range.toNat 1 w).2.walls
            bomb d'.1 d'.2 =
          raySpec w.walls bomb d'.1 d'.2 := by
      intro d' hd'
      unfold raySpec
      apply takeThrough_congr
      intro c hc
      rw [normalRayGo_walls_off pick now bomb d.1 d.2 bomb.range.toNat 1 w c
        (fun hcd => hd d' hd' c hcd hc)]
    constructor
    · rw [ih1, List.map_congr_left hkey, normalRayGo_positions]
      simp only [List.map_cons, List.flatten_cons, List.append_assoc, raySpec]
    · intro q hq
      rw [ih2 q (fun d' hd' => hq d' (List.mem_cons_of_mem _ hd'))]
      exact normalRayGo_walls_off pick now bomb d.1 d.2 bomb.range.toNat 1 w q
        (hq d (List.mem_cons_self _ _))

theorem range_toNat_le (bomb : Bomb) (hr : bomb.range = 3 ∨ bomb.range = 6) :
    bomb.range.toNat ≤ 6 := by
  rcases hr with h | h <;> rw [h] <;> decide

/-- For the ranges the program creates (3 and 6; `2·range < ROWS ≤ COLS`),
the four untruncated rays are pairwise disjoint. -/
theorem rays_pairwise (bomb : Bomb) (hr : bomb.range = 3 ∨ bomb.range = 6) :
    List.Pairwise (fun a b => ∀ q ∈ fullRayFrom bomb a.1 a.2 1 bomb.range.toNat,
      q ∉ fullRayFrom bomb b.1 b.2 1 bomb.range.toNat) dirsList := by
  have hrn : bomb.range.toNat ≤ 6 := range_toNat_le bomb hr
  apply List.Nodup.pairwise_of_forall_ne (by decide)
  intro d1 h1 d2 h2 hne
  simp only [dirsList, List.mem_cons, List.not_mem_nil, or_false] at h1 h2
  rcases h1 with rfl | rfl | rfl | rfl <;> rcases h2 with rfl | rfl | rfl | rfl <;>
    first
      | exact absurd rfl hne
      | (intro q hq1 hq2
         rw [fullRayFrom_eq_map] at hq1 hq2
         obtain ⟨k1, hk1, rfl⟩ := List.mem_map.mp hq1
         obtain ⟨k2, hk2, heq⟩ := List.mem_map.mp hq2
         rw [List.mem_range] at hk1 hk2
         simp only [rayCell, wrapC, wrapR, Prod.mk.injEq] at heq
         obtain ⟨hxe, hye⟩ := heq
         push_cast at hxe hye
         omega)

/-- With the bomb cell in range, no ray cell coincides with the bomb cell. -/
theorem center_not_mem_ray (bomb : Bomb)
    (hx1 : 0 ≤ bomb.x) (hx2 : bomb.x < COLS) (hy1 : 0 ≤ bomb.y) (hy2 : bomb.y < ROWS)
    (hr : bomb.range = 3 ∨ bomb.range = 6) :
    ∀ d ∈ dirsList,
      ((bomb.x, bomb.y) : Pos) ∉ fullRayFrom bomb d.1 d.2 1 bomb.range.toNat := by
  have hrn : bomb.range.toNat ≤ 6 := range_toNat_le bomb hr
  rw [COLS_eq] at hx2
  rw [ROWS_eq] at hy2
  intro d hd
  simp only [dirsList, List.mem_cons, List.not_mem_nil, or_false] at hd
  rcases hd with rfl | rfl | rfl | rfl <;>
    (intro hq
     rw [fullRayFrom_eq_map] at hq
     obtain ⟨k, hk, heq⟩ := List.mem_map.mp hq
     rw [List.mem_range] at hk
     simp only [rayCell, wrapC, wrapR, Prod.mk.injEq] at heq
     obtain ⟨hxe, hye⟩ := heq
     push_cast at hxe hye
     omega)

/-- Each untruncated ray has no duplicate cells. -/
theorem ray_nodup (bomb : Bomb) (hr : bomb.range = 3 ∨ bomb.range = 6) :
    ∀ d ∈ dirsList, (fullRayFrom bomb d.1 d.2 1 bomb.range.toNat).Nodup := by
  have hrn : bomb.range.toNat ≤ 6 := range_toNat_le bomb hr
  intro d hd
  rw [fullRayFrom_eq_map]
  apply List.Nodup.map_on _ (List.nodup_range _)
  intro k1 hk1 k2 hk2 heq
  rw [List.mem_range] at hk1 hk2
  simp only [dirsList, List.mem_cons, List.not_mem_nil, or_false] at hd
  rcases hd with rfl | rfl | rfl | rfl <;>
    (simp only [rayCell, wrapC, wrapR, Prod.mk.injEq] at heq
     obtain ⟨hxe, hye⟩ := heq
     push_cast at hxe hye
     omega)

/-- C1: a non-tornado detonation (the program's normal and mega bombs, of
range 3 resp. 6) produces exactly the bomb cell followed by the four
specification rays — each direction independently truncated at (and
including) the first wall of the pre-detonation wall map — and, when no
walls exist, exactly `1 + 4·range` pairwise-distinct cells. -/
theorem c1_normal_explosion (pick : Int → Int → Nat) (now : Int) (bomb : Bomb)
    (w : World) (hty : ¬bomb.type = "tornado")
    (hx1 : 0 ≤ bomb.x) (hx2 : bomb.x < COLS) (hy1 : 0 ≤ bomb.y) (hy2 : bomb.y < ROWS)
    (hr : bomb.range = 3 ∨ bomb.range = 6) :
    (explodeBomb pick now bomb w).2 = normalSpecCells w.walls bomb ∧
    (w.walls = [] →
      (explodeBomb pick now bomb w).2.length = 1 + 4 * bomb.range.toNat ∧
      (explodeBomb pick now bomb w).2.Nodup) := by
  have hpw := rays_pairwise bomb hr
  have hpos : (explodeBomb pick now bomb w).2 = normalSpecCells w.walls bomb := by
    simp only [explodeBomb, if_neg hty, createNormalExplosion, normalSpecCells]
    have hfold := (normalExplosion_fold pick now bomb dirsList
      { w with explosions := aset w.explosions (bomb.x, bomb.y) ⟨bomb.x, bomb.y, now⟩ }
      [] hpw).1
    rw [List.nil_append] at hfold
    rw [hfold]
  refine ⟨hpos, fun hwalls => ?_⟩
  rw [hpos, hwalls]
  have hshape : normalSpecCells [] bomb =
      (bomb.x, bomb.y) ::
        (dirsList.map (fun d => fullRayFrom bomb d.1 d.2 1 bomb.range.toNat)).flatten := by
    unfold normalSpecCells raySpec
    congr 2
    apply List.map_congr_left
    intro d _
    exact takeThrough_no_hit _ (fun c _ => rfl)
  rw [hshape]
  constructor
  · simp only [List.length_cons, List.length_flatten, List.map_map, dirsList,
      List.map_cons, List.map_nil, List.sum_cons, List.sum_nil, Function.comp_apply,
      fullRayFrom_length]
    omega
  · have hc := center_not_mem_ray bomb hx1 hx2 hy1 hy2 hr
    have hn := ray_nodup bomb hr
    have hpw' := hpw
    simp only [dirsList, List.pairwise_cons, List.mem_cons, List.not_mem_nil,
      or_false, List.Pairwise.nil] at hpw'
    obtain ⟨h1, h2, h3, _⟩ := hpw'
    have h12 := h1 _ (Or.inl rfl)
    have h13 := h1 _ (Or.inr (Or.inl rfl))
    have h14 := h1 _ (Or.inr (Or.inr rfl))
    have h23 := h2 _ (Or.inl rfl)
    have h24 := h2 _ (Or.inr rfl)
    have h34 := h3 _ rfl
    simp only [dirsList, List.map_cons, List.map_nil, List.flatten_cons,
      List.flatten_nil, List.append_nil]
    apply List.nodup_cons.mpr
    constructor
    · simp only [List.mem_append, not_or]
      exact ⟨hc (0, 1) (by simp [dirsList]), hc (0, -1) (by simp [dirsList]),
        hc (1, 0) (by simp [dirsList]), hc (-1, 0) (by simp [dirsList])⟩
    · apply List.nodup_append.mpr
      refine ⟨hn (0, 1) (by simp [dirsList]), ?_, ?_⟩
      · apply List.nodup_append.mpr
        refine ⟨hn (0, -1) (by simp [dirsList]), ?_, ?_⟩
        · apply List.nodup_append.mpr
          refine ⟨hn (1, 0) (by simp [dirsList]), hn (-1, 0) (by simp [dirsList]), ?_⟩
          exact fun a ha hb => h34 a ha hb
        · intro a ha hb
          rcases List.mem_append.mp hb with hb | hb
          · exact h23 a ha hb
          · exact h24 a ha hb
      · intro a ha hb
        rcases List.mem_append.mp hb with hb | hb
        · exact h12 a ha hb
        · rcases List.mem_append.mp hb with hb | hb
          · exact h13 a ha hb
          · exact h14 a ha hb

def c1Bomb : Bomb :=
  { id := "b", x := 5, y := 5, timer := 3000, range := 3, type := "normal",
    playerId := "p" }

theorem c1_normal_explosion_witness :
    ¬Bomb.type c1Bomb = "tornado" ∧
    0 ≤ Bomb.x c1Bomb ∧ Bomb.x c1Bomb < COLS ∧
    0 ≤ Bomb.y c1Bomb ∧ Bomb.y c1Bomb < ROWS ∧
    (Bomb.range c1Bomb = 3 ∨ Bomb.range c1Bomb = 6) ∧
    ((explodeBomb (fun _ _ => 0) 0 c1Bomb emptyWorld).2 =
        normalSpecCells emptyWorld.walls c1Bomb ∧
      (emptyWorld.walls = [] →
        (explodeBomb (fun _ _ => 0) 0 c1Bomb emptyWorld).2.length =
            1 + 4 * (Bomb.range c1Bomb).toNat ∧
        (explodeBomb (fun _ _ => 0) 0 c1Bomb emptyWorld).2.Nodup)) :=
  ⟨by decide, by decide, by decide, by decide, by decide, Or.inl (by decide),
    c1_normal_explosion (fun _ _ => 0) 0 c1Bomb emptyWorld (by decide) (by decide)
      (by decide) (by decide) (by decide) (Or.inl (by decide))⟩

/-! # Claim C8: the lives/alive invariant

`LivesInvP` is the per-player invariant of the claim: `lives ∈ [0,8]` and the
`alive` flag is false exactly when `lives` is 0 (every player is created with
5 lives and `alive = true`, and the only transition to `alive = false` is the
damage path that decrements `lives` to 0). -/

def LivesInvP (p : Player) : Prop :=
  0 ≤ p.lives ∧ p.lives ≤ 8 ∧ (p.alive = true ↔ 0 < p.lives)

def LivesInv (players : List (String × Player)) : Prop :=
  ∀ e ∈ players, LivesInvP e.2

instance (p : Player) : Decidable (LivesInvP p) := by
  unfold LivesInvP
  infer_instance

instance (players : List (String × Player)) : Decidable (LivesInv players) := by
  unfold LivesInv
  infer_instance

theorem livesInvP_same {p q : Player} (hl : q.lives = p.lives) (ha : q.alive = p.alive)
    (h : LivesInvP p) : LivesInvP q := by
  unfold LivesInvP at *
  rw [hl, ha]
  exact h

theorem livesInv_aset {players : List (String × Player)} {pid : String} {p : Player}
    (h : LivesInv players) (hp : LivesInvP p) : LivesInv (aset players pid p) := by
  intro e he
  rcases mem_aset he with rfl | he'
  · exact hp
  · exact h e he'

theorem alookup_isSome_iff_mem_keys {α β : Type} [DecidableEq α]
    (l : List (α × β)) (k : α) :
    (alookup l k).isSome = true ↔ k ∈ l.map Prod.fst := by
  induction l with
  | nil => simp
  | cons e l ih =>
    obtain ⟨a, b⟩ := e
    by_cases h : a = k
    · subst h; simp [alookup_cons]
    · have h' : ¬k = a := fun hh => h hh.symm
      simp [alookup_cons, h, h', ih]

/-- One world-mutation step as seen by claim C8: it maps invariant player
maps to invariant player maps and never drops a player record. -/
def LStep (pl pl' : List (String × Player)) : Prop :=
  (LivesInv pl → LivesInv pl') ∧
    (∀ pid, (alookup pl pid).isSome = true → (alookup pl' pid).isSome = true)

theorem lstep_of_eq {pl pl' : List (String × Player)} (h : pl' = pl) : LStep pl pl' := by
  subst h
  exact ⟨id, fun _ => id⟩

theorem lstep_trans {a b c : List (String × Player)} (h1 : LStep a b) (h2 : LStep b c) :
    LStep a c :=
  ⟨fun h => h2.1 (h1.1 h), fun pid hp => h2.2 pid (h1.2 pid hp)⟩

theorem lstep_aset {pl : List (String × Player)} {pid : String} {p : Player}
    (hp : LivesInv pl → LivesInvP p) : LStep pl (aset pl pid p) :=
  ⟨fun h => livesInv_aset h (hp h), fun k hk => alookup_isSome_aset _ _ _ _ hk⟩

theorem keys_map_entry {α β : Type} (f : α × β → β) (l : List (α × β)) :
    (l.map (fun e => (e.1, f e))).map Prod.fst = l.map Prod.fst := by
  induction l with
  | nil => rfl
  | cons e l ih => simp [ih]

theorem lstep_map_entry {pl : List (String × Player)} (f : String × Player → Player)
    (hf : LivesInv pl → ∀ e ∈ pl, LivesInvP (f e)) :
    LStep pl (pl.map (fun e => (e.1, f e))) := by
  constructor
  · intro h e' he'
    obtain ⟨e, he, rfl⟩ := List.mem_map.mp he'
    exact hf h e he
  · intro pid hp
    rw [alookup_isSome_iff_mem_keys] at hp ⊢
    rwa [keys_map_entry]

theorem cpecStep_livesInvP (walls : List (Pos × Wall)) (ps : List Pos)
    (done rest : List (String × Player)) (pid : String) (p : Player)
    (h : LivesInvP p) : LivesInvP (cpecStep walls ps done rest pid p) := by
  obtain ⟨h1, h2, h3⟩ := h
  unfold cpecStep
  cases ha : p.alive with
  | false =>
    simp only [ha, Bool.not_false, if_true]
    exact ⟨h1, h2, h3⟩
  | true =>
    simp only [ha, Bool.not_true, Bool.false_eq_true, if_false]
    have hl : 0 < p.lives := h3.mp ha
    by_cases hm : (p.x, p.y) ∈ ps
    · simp only [hm, if_true]
      by_cases hff : effActive p "force_field" = true
      · simp only [hff, if_true]
        exact ⟨h1, h2, h3⟩
      · simp only [Bool.not_eq_true] at hff
        simp only [hff, Bool.false_eq_true, if_false]
        by_cases hpl : 0 < p.lives - 1
        · simp only [hpl, if_true]
          refine ⟨?_, ?_, ?_⟩
          · show 0 ≤ p.lives - 1
            omega
          · show p.lives - 1 ≤ 8
            omega
          · show true = true ↔ 0 < p.lives - 1
            simp [hpl]
        · simp only [hpl, if_false]
          refine ⟨?_, ?_, ?_⟩
          · show 0 ≤ p.lives - 1
            omega
          · show p.lives - 1 ≤ 8
            omega
          · show false = true ↔ 0 < p.lives - 1
            simp [hpl]
    · simp only [hm, if_false]
      exact ⟨h1, h2, h3⟩

theorem lstep_cpecGo (walls : List (Pos × Wall)) (ps : List Pos) :
    ∀ (rest done : List (String × Player)),
      (LivesInv done → LivesInv rest → LivesInv (cpecGo walls ps done rest)) ∧
      (cpecGo walls ps done rest).map Prod.fst =
        done.map Prod.fst ++ rest.map Prod.fst := by
  intro rest
  induction rest with
  | nil =>
    intro done
    exact ⟨fun h _ => by simpa [cpecGo] using h, by simp [cpecGo]⟩
  | cons e rest ih =>
    intro done
    obtain ⟨pid, p⟩ := e
    rw [cpecGo]
    obtain ⟨ihInv, ihKeys⟩ :=
      ih (done ++ [(pid, cpecStep walls ps done rest pid p)])
    constructor
    · intro hdone hrest
      apply ihInv
      · intro e' he'
        rcases List.mem_append.mp he' with h' | h'
        · exact hdone e' h'
        · rcases List.mem_singleton.mp h' with rfl
          exact cpecStep_livesInvP _ _ _ _ _ _ (hrest (pid, p) (List.mem_cons_self _ _))
      · intro e' he'
        exact hrest e' (List.mem_cons_of_mem _ he')
    · rw [ihKeys]
      simp

theorem lstep_cpec (ps : List Pos) (w : World) :
    LStep w.players (checkPlayerExplosionCollisions ps w).players := by
  obtain ⟨hInv, hKeys⟩ := lstep_cpecGo w.walls ps w.players []
  constructor
  · intro h
    exact hInv (by intro e he; simp at he) h
  · intro pid hp
    rw [alookup_isSome_iff_mem_keys] at hp ⊢
    simp only [checkPlayerExplosionCollisions, hKeys]
    simpa using hp

/-! Player containers are untouched by the explosion field machinery. -/

theorem normalRayGo_players (pick : Int → Int → Nat) (now : Int) (bomb : Bomb)
    (dx dy : Int) :
    ∀ (fuel i : Nat) (w : World),
      (normalRayGo pick now bomb dx dy fuel i w).2.players = w.players := by
  intro fuel
  induction fuel with
  | zero => intro i w; rfl
  | succ fuel ih =>
    intro i w
    simp only [normalRayGo]
    rcases hw : alookup w.walls (wrapCoordinate (bomb.x + dx * (i : Int)) COLS,
        wrapCoordinate (bomb.y + dy * (i : Int)) ROWS) with _ | wall
    · simp only [hw]
      rw [ih]
    · by_cases hd : wall.destructible <;> simp [hw, hd, spawnPowerup]

theorem normalFold_players (pick : Int → Int → Nat) (now : Int) (bomb : Bomb) :
    ∀ (ds : List (Int × Int)) (w : World) (acc : List Pos),
      ((ds.foldl (fun acc d =>
        let r := normalRayGo pick now bomb d.1 d.2 bomb.range.toNat 1 acc.2
        (acc.1 ++ r.1, r.2)) (acc, w)).2).players = w.players := by
  intro ds
  induction ds with
  | nil => intro w acc; rfl
  | cons d ds ih =>
    intro w acc
    simp only [List.foldl_cons]
    rw [ih, normalRayGo_players]

theorem lstep_explodeBomb (pick : Int → Int → Nat) (now : Int) (bomb : Bomb)
    (w : World) : LStep w.players (explodeBomb pick now bomb w).1.players := by
  unfold explodeBomb
  by_cases hty : bomb.type = "tornado"
  · simp only [hty, if_true]
    refine lstep_trans (lstep_of_eq ?_) (lstep_cpec _ _)
    rw [createTornadoExplosion, tornadoGo_players]
  · simp only [if_neg hty]
    refine lstep_trans (lstep_of_eq ?_) (lstep_cpec _ _)
    rw [createNormalExplosion, normalFold_players]

theorem movePullOne_players (a b : Int) (pu : Powerup) (w : World) :
    (movePullOne a b pu w).players = w.players := by
  unfold movePullOne
  dsimp only
  repeat' split
  all_goals rfl

theorem foldl_world_players {γ : Type} (f : World → γ → World)
    (hf : ∀ w a, (f w a).players = w.players) :
    ∀ (l : List γ) (w : World), (l.foldl f w).players = w.players := by
  intro l
  induction l with
  | nil => intro w; rfl
  | cons a l ih =>
    intro w
    simp only [List.foldl_cons]
    rw [ih, hf]

theorem magnetPull_players (a b : Int) (w : World) :
    (magnetPull a b w).players = w.players := by
  unfold magnetPull
  exact foldl_world_players _ (fun w pu => movePullOne_players a b pu w) _ w

theorem srbGo_players (draw : Nat → Nat × Nat) :
    ∀ (fuel k : Nat) (w : World), (srbGo draw k fuel w).players = w.players := by
  intro fuel
  induction fuel with
  | zero => intro k w; rfl
  | succ fuel ih =>
    intro k w
    rw [srbGo]
    split
    · rfl
    · exact ih (k + 1) w

/-- The power-up collection step maps invariant player lists to invariant
player lists and never deletes a record, provided the collector (when it
exists) is alive — which every call site guarantees. -/
theorem lstep_collect (cs : Nat) (sr : String → Nat → Nat × Nat) (now : Int)
    (pid : String) (x y : Int) (w : World)
    (halive : ∀ q, alookup w.players pid = some q → q.alive = true) :
    LStep w.players (collectPowerup cs sr now pid x y w).1.players := by
  unfold collectPowerup
  rcases hpu : alookup w.powerups (x, y) with _ | pu
  · exact lstep_of_eq (by simp only [hpu])
  rcases hp : alookup w.players pid with _ | player
  · exact lstep_of_eq (by simp only [hpu, hp])
  rcases hpd : powerupDefFind pu.type with _ | pdef
  · exact lstep_of_eq (by simp only [hpu, hp, hpd])
  simp only [hpu, hp, hpd]
  have hal : player.alive = true := halive player hp
  by_cases h1 : pu.type = "extra_life"
  · simp only [h1, if_true]
    apply lstep_aset
    intro hinv
    have hP : LivesInvP player := hinv _ (alookup_mem hp)
    obtain ⟨g1, g2, g3⟩ := hP
    refine ⟨?_, ?_, ?_⟩
    · show 0 ≤ min (player.lives + 1) 8
      omega
    · show min (player.lives + 1) 8 ≤ 8
      omega
    · show player.alive = true ↔ 0 < min (player.lives + 1) 8
      rw [hal]
      simp only [true_iff]
      omega
  simp only [if_neg h1]
  by_cases h2 : pu.type = "swap"
  · simp only [h2, if_true]
    split
    · rcases htgt : alookup w.players
        (((w.players.filter (fun e => decide (e.1 ≠ pid) && e.2.alive)).map
          Prod.fst).getD (cs % ((w.players.filter
            (fun e => decide (e.1 ≠ pid) && e.2.alive)).map Prod.fst).length) "")
        with _ | target
      · simp only [htgt]
        exact lstep_of_eq rfl
      · simp only [htgt]
        refine ⟨fun hinv => livesInv_aset (livesInv_aset hinv ?_) ?_,
          fun k hk => alookup_isSome_aset _ _ _ _ (alookup_isSome_aset _ _ _ _ hk)⟩
        · exact livesInvP_same rfl rfl (hinv _ (alookup_mem hp))
        · exact livesInvP_same rfl rfl (hinv _ (alookup_mem htgt))
    · exact lstep_of_eq rfl
  simp only [if_neg h2]
  by_cases h3 : pu.type = "scramble"
  · simp only [h3, if_true]
    have hmap : w.players.map (fun e =>
        if e.2.alive then
          (e.1, { e.2 with
            x := (scrambleGo w.walls (sr e.1) 0 19).1,
            y := (scrambleGo w.walls (sr e.1) 0 19).2 })
        else e) =
      w.players.map (fun e => (e.1,
        if e.2.alive then
          { e.2 with
            x := (scrambleGo w.walls (sr e.1) 0 19).1,
            y := (scrambleGo w.walls (sr e.1) 0 19).2 }
        else e.2)) := by
      apply List.map_congr_left
      intro e _
      by_cases ha : e.2.alive <;> simp [ha]
    rw [hmap]
    apply lstep_map_entry
    intro hinv e he
    by_cases ha : e.2.alive
    · simp only [ha, if_true]
      obtain ⟨g1, g2, g3⟩ := hinv e he
      rw [ha] at g3
      exact ⟨g1, g2, g3⟩
    · simp only [ha, Bool.false_eq_true, if_false]
      exact hinv e he
  simp only [if_neg h3]
  by_cases h4 : 0 < pdef.duration
  · simp only [h4, if_true]
    apply lstep_aset
    intro hinv
    exact livesInvP_same rfl rfl (hinv _ (alookup_mem hp))
  · simp only [if_neg h4]
    apply lstep_aset
    intro hinv
    exact livesInvP_same rfl rfl (hinv _ (alookup_mem hp))

theorem moveTrail_players (now : Int) (pid : String) (player : Player) (w : World) :
    (moveTrail now pid player w).players = w.players := by
  unfold moveTrail
  split <;> rfl

theorem moveMagnet_players (player : Player) (a b : Int) (w : World) :
    (moveMagnet player a b w).players = w.players := by
  unfold moveMagnet
  split
  · exact magnetPull_players a b w
  · rfl

theorem lstep_updPlayer (pid : String) (p : Player) (w : World)
    (hp : LivesInv w.players → LivesInvP p) :
    LStep w.players (updPlayer pid p w).players :=
  lstep_aset hp

theorem lstep_moveFireTrailHit (pid : String) (a b : Int) (w : World) :
    LStep w.players (moveFireTrailHit pid a b w).players := by
  unfold moveFireTrailHit
  rcases hf : alookup w.fireTrails (a, b) with _ | ft <;> simp only [hf]
  · exact lstep_of_eq rfl
  · split
    · exact lstep_cpec _ _
    · exact lstep_of_eq rfl

theorem lstep_move (cs : Nat) (sr : String → Nat → Nat × Nat) (now : Int)
    (pid : String) (x y : Int) (w : World) :
    LStep w.players (moveCmd cs sr now pid x y w).players := by
  unfold moveCmd
  rcases hp : alookup w.players pid with _ | player <;> simp only [hp]
  · exact lstep_of_eq rfl
  by_cases halive : player.alive = true
  case neg =>
    have hfalse : player.alive = false := by
      cases hh : player.alive
      · rfl
      · exact absurd hh halive
    exact lstep_of_eq (by simp only [hfalse, Bool.not_false, if_true])
  case pos =>
    have hnotalive : (!player.alive) = false := by rw [halive]; rfl
    simp only [hnotalive, Bool.false_eq_true, if_false]
    have hsucc : LStep w.players
        (moveFireTrailHit pid (wrapCoordinate x COLS) (wrapCoordinate y ROWS)
          (collectPowerup cs sr now pid (wrapCoordinate x COLS) (wrapCoordinate y ROWS)
            (moveMagnet player (wrapCoordinate x COLS) (wrapCoordinate y ROWS)
              (updPlayer pid
                { player with x := wrapCoordinate x COLS, y := wrapCoordinate y ROWS }
                (moveTrail now pid player w)))).1).players := by
      have s1 : LStep w.players
          (updPlayer pid
            { player with x := wrapCoordinate x COLS, y := wrapCoordinate y ROWS }
            (moveTrail now pid player w)).players := by
        have heq : (updPlayer pid
            { player with x := wrapCoordinate x COLS, y := wrapCoordinate y ROWS }
            (moveTrail now pid player w)).players =
            aset w.players pid
              { player with x := wrapCoordinate x COLS, y := wrapCoordinate y ROWS } := by
          show aset (moveTrail now pid player w).players pid _ = _
          rw [moveTrail_players]
        refine lstep_trans (lstep_aset ?_) (lstep_of_eq heq)
        intro hinv
        exact livesInvP_same rfl rfl (hinv _ (alookup_mem hp))
      have hlook : alookup (moveMagnet player (wrapCoordinate x COLS)
          (wrapCoordinate y ROWS)
          (updPlayer pid
            { player with x := wrapCoordinate x COLS, y := wrapCoordinate y ROWS }
            (moveTrail now pid player w))).players pid
          = some { player with x := wrapCoordinate x COLS, y := wrapCoordinate y ROWS } := by
        rw [moveMagnet_players]
        exact alookup_aset_self _ _ _
      have s2 : LStep (updPlayer pid
          { player with x := wrapCoordinate x COLS, y := wrapCoordinate y ROWS }
          (moveTrail now pid player w)).players
          (moveMagnet player (wrapCoordinate x COLS) (wrapCoordinate y ROWS)
            (updPlayer pid
              { player with x := wrapCoordinate x COLS, y := wrapCoordinate y ROWS }
              (moveTrail now pid player w))).players :=
        lstep_of_eq (moveMagnet_players _ _ _ _)
      have s3 := lstep_collect cs sr now pid (wrapCoordinate x COLS)
        (wrapCoordinate y ROWS)
        (moveMagnet player (wrapCoordinate x COLS) (wrapCoordinate y ROWS)
          (updPlayer pid
            { player with x := wrapCoordinate x COLS, y := wrapCoordinate y ROWS }
            (moveTrail now pid player w)))
        (fun q hq => by
          rw [hlook] at hq
          cases Option.some.inj hq
          exact halive)
      have s4 := lstep_moveFireTrailHit pid (wrapCoordinate x COLS)
        (wrapCoordinate y ROWS)
        (collectPowerup cs sr now pid (wrapCoordinate x COLS) (wrapCoordinate y ROWS)
          (moveMagnet player (wrapCoordinate x COLS) (wrapCoordinate y ROWS)
            (updPlayer pid
              { player with x := wrapCoordinate x COLS, y := wrapCoordinate y ROWS }
              (moveTrail now pid player w)))).1
      exact lstep_trans (lstep_trans (lstep_trans s1 s2) s3) s4
    split <;> split
    · exact hsucc
    · exact lstep_of_eq rfl
    · exact hsucc
    · exact lstep_of_eq rfl

theorem lstep_identify (pid : String) (w : World) :
    LStep w.players (identifyCmd pid w).players := by
  unfold identifyCmd
  split
  · exact lstep_of_eq rfl
  · apply lstep_aset
    intro _
    refine ⟨?_, ?_, ?_⟩
    · show (0 : Int) ≤ 5
      decide
    · show (5 : Int) ≤ 8
      decide
    · show true = true ↔ (0 : Int) < 5
      simp

theorem consumeUse_lives (kind : String) (p : Player) (h : LivesInvP p) :
    LivesInvP (consumeUse kind p) := by
  unfold consumeUse
  rcases he : alookup p.powerups kind with _ | e <;> simp only [he]
  · exact h
  · split <;> exact livesInvP_same rfl rfl h

theorem lstep_place (bid pid : String) (x y : Int) (w : World) :
    LStep w.players (placeBombCmd bid pid x y w).players := by
  unfold placeBombCmd placeBomb
  rcases hp : alookup w.players pid with _ | player <;> simp only [hp]
  · exact lstep_of_eq rfl
  · split
    · exact lstep_of_eq rfl
    · split
      · exact lstep_of_eq rfl
      · apply lstep_updPlayer
        intro hinv
        have hP : LivesInvP player := hinv _ (alookup_mem hp)
        repeat' split
        · exact consumeUse_lives _ _ hP
        · exact consumeUse_lives _ _ hP
        · exact hP

theorem lstep_teleport (pid : String) (x y : Int) (w : World) :
    LStep w.players (teleportCmd pid x y w).players := by
  unfold teleportCmd
  rcases hp : alookup w.players pid with _ | player <;> simp only [hp]
  · exact lstep_of_eq rfl
  · split
    · exact lstep_of_eq rfl
    · split
      · exact lstep_of_eq rfl
      · split
        · apply lstep_updPlayer
          intro hinv
          exact consumeUse_lives _ _
            (livesInvP_same rfl rfl (hinv _ (alookup_mem hp)))
        · exact lstep_of_eq rfl

theorem lstep_build (pid : String) (x y : Int) (w : World) :
    LStep w.players (buildWallCmd pid x y w).players := by
  unfold buildWallCmd
  rcases hp : alookup w.players pid with _ | player <;> simp only [hp]
  · exact lstep_of_eq rfl
  · split
    · exact lstep_of_eq rfl
    · split
      · exact lstep_of_eq rfl
      · split
        · apply lstep_updPlayer
          intro hinv
          exact consumeUse_lives _ _ (hinv _ (alookup_mem hp))
        · exact lstep_of_eq rfl

theorem lstep_fuse (pick : Int → Int → Nat) (now : Int) (key : Pos) (w : World) :
    LStep w.players (fuseFire pick now key w).players := by
  unfold fuseFire
  rcases hb : alookup w.bombs key with _ | bomb <;> simp only [hb]
  · exact lstep_of_eq rfl
  · exact lstep_explodeBomb pick now bomb w

theorem lstep_expire (now : Int) (w : World) :
    LStep w.players (expireOp now w).players := by
  unfold expireOp
  apply lstep_map_entry
  intro hinv e he
  exact livesInvP_same rfl rfl (hinv e he)

/-- C8: every operation of the core — client command or timer body —
preserves `lives ∈ [0,8]` and `alive = false ↔ lives = 0` for every player,
and never deletes a player record. -/
theorem c8_lives_invariant (op : Op) (w : World) (h : LivesInv w.players) :
    LivesInv (applyOp op w).players ∧
    (∀ pid, (alookup w.players pid).isSome = true →
      (alookup (applyOp op w).players pid).isSome = true) := by
  have hstep : LStep w.players (applyOp op w).players := by
    cases op with
    | connect draw =>
      refine lstep_of_eq ?_
      show (connectOp draw w).players = w.players
      unfold connectOp initWalls
      split <;> rfl
    | identify pid => exact lstep_identify pid w
    | move cs sr now pid x y => exact lstep_move cs sr now pid x y w
    | place bid pid x y => exact lstep_place bid pid x y w
    | teleport pid x y => exact lstep_teleport pid x y w
    | build pid x y => exact lstep_build pid x y w
    | fuse pick now key => exact lstep_fuse pick now key w
    | decay ps => exact lstep_of_eq rfl
    | trailDecay key => exact lstep_of_eq rfl
    | blockSpawn draw =>
      refine lstep_of_eq ?_
      show (spawnRandomBlock draw w).players = w.players
      unfold spawnRandomBlock
      dsimp only
      split
      · rfl
      · exact srbGo_players draw 20 0 w
    | expire now => exact lstep_expire now w
  exact ⟨hstep.1 h, hstep.2⟩

def c8World : World :=
  { emptyWorld with players := [("p1", ⟨"p1", 2, 2, "", true, 5, []⟩)] }

theorem c8_lives_invariant_witness :
    LivesInv c8World.players ∧
    (LivesInv (applyOp (Op.move 0 (fun _ _ => (0, 0)) 0 "p1" 3 2)
        c8World).players ∧
      (∀ pid, (alookup c8World.players pid).isSome = true →
        (alookup (applyOp (Op.move 0 (fun _ _ => (0, 0)) 0 "p1" 3 2)
          c8World).players pid).isSome = true)) :=
  ⟨by decide,
    c8_lives_invariant (Op.move 0 (fun _ _ => (0, 0)) 0 "p1" 3 2) c8World
      (by decide)⟩

/-! # Claim C4: stored coordinates

The wrapped-coordinates invariant of the claim, per entity container. -/

def inRange (x y : Int) : Prop := 0 ≤ x ∧ x < COLS ∧ 0 ≤ y ∧ y < ROWS

instance (x y : Int) : Decidable (inRange x y) := by
  unfold inRange
  infer_instance

def WrappedInv (w : World) : Prop :=
  (∀ e ∈ w.players, inRange e.2.x e.2.y) ∧
  (∀ e ∈ w.bombs, inRange e.2.x e.2.y) ∧
  (∀ e ∈ w.explosions, inRange e.2.x e.2.y) ∧
  (∀ e ∈ w.walls, inRange e.2.x e.2.y) ∧
  (∀ e ∈ w.powerups, inRange e.2.x e.2.y) ∧
  (∀ e ∈ w.fireTrails, inRange e.2.x e.2.y)

/-- The coordinates that `placeBomb` stores are exactly the command payload,
unwrapped; the invariant therefore only survives operations whose
`place` payload is already in range. -/
def opCoordsOk : Op → Prop
  | .place _ _ x y => inRange x y
  | _ => True

theorem inRange_wrap (a b : Int) :
    inRange (wrapCoordinate a COLS) (wrapCoordinate b ROWS) := by
  obtain ⟨h1, h2⟩ := wrapCoordinate_mem a COLS (by decide)
  obtain ⟨h3, h4⟩ := wrapCoordinate_mem b ROWS (by decide)
  exact ⟨h1, h2, h3, h4⟩

section RangeLemmas

variable {α β : Type} [DecidableEq α] {P : α × β → Prop}

theorem allP_aset {l : List (α × β)} {k : α} {v : β}
    (h : ∀ e ∈ l, P e) (hv : P (k, v)) : ∀ e ∈ aset l k v, P e := by
  intro e he
  rcases mem_aset he with rfl | he'
  · exact hv
  · exact h e he'

theorem allP_aremove {l : List (α × β)} {k : α}
    (h : ∀ e ∈ l, P e) : ∀ e ∈ aremove l k, P e :=
  fun e he => h e (mem_aremove he)

end RangeLemmas

theorem getSpawnPosition_inRange (players : List (String × Player))
    (walls : List (Pos × Wall)) :
    inRange (getSpawnPosition players walls).1 (getSpawnPosition players walls).2 := by
  unfold getSpawnPosition
  dsimp only
  split
  · rename_i pos hf
    have hmem := List.mem_of_find?_eq_some hf
    simp only [List.mem_cons, List.not_mem_nil, or_false] at hmem
    rcases hmem with rfl | rfl | rfl | rfl <;> decide
  · decide

theorem scrambleGo_inRange (walls : List (Pos × Wall)) (draw : Nat → Nat × Nat) :
    ∀ (fuel k : Nat),
      inRange (scrambleGo walls draw k fuel).1 (scrambleGo walls draw k fuel).2 := by
  have hbound : ∀ m : Nat,
      inRange (((draw m).1 % COLS.toNat : Nat) : Int)
        (((draw m).2 % ROWS.toNat : Nat) : Int) := by
    intro m
    unfold inRange
    have hc : COLS.toNat = 25 := rfl
    have hr : ROWS.toNat = 19 := rfl
    rw [hc, hr, COLS_eq, ROWS_eq]
    refine ⟨?_, ?_, ?_, ?_⟩ <;> omega
  intro fuel
  induction fuel with
  | zero => intro k; exact hbound k
  | succ fuel ih =>
    intro k
    rw [scrambleGo]
    split
    · exact ih (k + 1)
    · exact hbound k

theorem pullCoordinate_mem (target cur mx : Int) (hm : 0 < mx) (h1 : 0 ≤ cur)
    (h2 : cur < mx) :
    0 ≤ pullCoordinate target cur mx ∧ pullCoordinate target cur mx < mx := by
  unfold pullCoordinate
  split
  · exact wrapCoordinate_mem _ _ hm
  · exact ⟨h1, h2⟩

theorem cpecStep_inRange (walls : List (Pos × Wall)) (ps : List Pos)
    (done rest : List (String × Player)) (pid : String) (p : Player)
    (h : inRange p.x p.y) :
    inRange (cpecStep walls ps done rest pid p).x
      (cpecStep walls ps done rest pid p).y := by
  unfold cpecStep
  split
  · exact h
  split
  · split
    · exact h
    · dsimp only
      split
      · exact getSpawnPosition_inRange _ _
      · exact h
  · exact h

theorem cpecGo_inRange (walls : List (Pos × Wall)) (ps : List Pos) :
    ∀ (rest done : List (String × Player)),
      (∀ e ∈ done, inRange e.2.x e.2.y) → (∀ e ∈ rest, inRange e.2.x e.2.y) →
      ∀ e ∈ cpecGo walls ps done rest, inRange e.2.x e.2.y := by
  intro rest
  induction rest with
  | nil =>
    intro done hdone _
    simpa [cpecGo] using hdone
  | cons e rest ih =>
    intro done hdone hrest
    obtain ⟨pid, p⟩ := e
    rw [cpecGo]
    apply ih
    · intro e' he'
      rcases List.mem_append.mp he' with h' | h'
      · exact hdone e' h'
      · rcases List.mem_singleton.mp h' with rfl
        exact cpecStep_inRange _ _ _ _ _ _ (hrest (pid, p) (List.mem_cons_self _ _))
    · intro e' he'
      exact hrest e' (List.mem_cons_of_mem _ he')

theorem cpec_wrapped (ps : List Pos) (w : World) (h : WrappedInv w) :
    WrappedInv (checkPlayerExplosionCollisions ps w) := by
  obtain ⟨hp, hb, he, hw, hpu, hf⟩ := h
  exact ⟨cpecGo_inRange w.walls ps w.players [] (by intro e he'; simp at he') hp,
    hb, he, hw, hpu, hf⟩

instance (w : World) : Decidable (WrappedInv w) := by
  unfold WrappedInv
  infer_instance

instance (op : Op) : Decidable (opCoordsOk op) := by
  cases op <;> unfold opCoordsOk <;> infer_instance

theorem allP_foldl {σ γ : Type} {P : σ → Prop} {f : List σ → γ → List σ}
    (hf : ∀ l a, (∀ e ∈ l, P e) → ∀ e ∈ f l a, P e) :
    ∀ (il : List γ) (l : List σ), (∀ e ∈ l, P e) →
      ∀ e ∈ il.foldl f l, P e := by
  intro il
  induction il with
  | nil => intro l hl; exact hl
  | cons a il ih => intro l hl; exact ih (f l a) (hf l a hl)

theorem wrapped_foldl {γ : Type} (Q : γ → Prop) (f : World → γ → World)
    (hf : ∀ w a, Q a → WrappedInv w → WrappedInv (f w a)) :
    ∀ (il : List γ) (w : World), (∀ a ∈ il, Q a) → WrappedInv w →
      WrappedInv (il.foldl f w) := by
  intro il
  induction il with
  | nil => intro w _ hw; exact hw
  | cons a il ih =>
    intro w hq hw
    exact ih (f w a) (fun b hb => hq b (List.mem_cons_of_mem _ hb))
      (hf w a (hq a (List.mem_cons_self _ _)) hw)

theorem allP_map {σ τ : Type} {P : τ → Prop} {f : σ → τ} {l : List σ}
    (h : ∀ a ∈ l, P (f a)) : ∀ e ∈ l.map f, P e := by
  intro e he
  obtain ⟨a, ha, rfl⟩ := List.mem_map.mp he
  exact h a ha

theorem updPlayer_wrapped (pid : String) (p : Player) (w : World)
    (hp : inRange p.x p.y) (h : WrappedInv w) : WrappedInv (updPlayer pid p w) := by
  obtain ⟨h1, h2, h3, h4, h5, h6⟩ := h
  exact ⟨allP_aset h1 hp, h2, h3, h4, h5, h6⟩

theorem spawnPowerup_wrapped (pick : Int → Int → Nat) (now x y : Int) (w : World)
    (hxy : inRange x y) (h : WrappedInv w) :
    WrappedInv (spawnPowerup pick now x y w) := by
  obtain ⟨h1, h2, h3, h4, h5, h6⟩ := h
  exact ⟨h1, h2, h3, h4, allP_aset h5 hxy, h6⟩

theorem explosions_aset_wrapped (w : World) (k : Pos) (ex : Explosion)
    (hx : inRange ex.x ex.y) (h : WrappedInv w) :
    WrappedInv { w with explosions := aset w.explosions k ex } := by
  obtain ⟨h1, h2, h3, h4, h5, h6⟩ := h
  exact ⟨h1, h2, allP_aset h3 hx, h4, h5, h6⟩

theorem walls_aremove_wrapped (w : World) (k : Pos) (h : WrappedInv w) :
    WrappedInv { w with walls := aremove w.walls k } := by
  obtain ⟨h1, h2, h3, h4, h5, h6⟩ := h
  exact ⟨h1, h2, h3, allP_aremove h4, h5, h6⟩

theorem consumeUse_xy (kind : String) (p : Player) :
    (consumeUse kind p).x = p.x ∧ (consumeUse kind p).y = p.y := by
  unfold consumeUse
  split
  · dsimp only
    split
    · exact ⟨rfl, rfl⟩
    · exact ⟨rfl, rfl⟩
  · exact ⟨rfl, rfl⟩

theorem consumeUse_inRange (kind : String) (p : Player) (hp : inRange p.x p.y) :
    inRange (consumeUse kind p).x (consumeUse kind p).y := by
  obtain ⟨hx, hy⟩ := consumeUse_xy kind p
  rw [hx, hy]
  exact hp

theorem decayExplosions_wrapped (ps : List Pos) (w : World) (h : WrappedInv w) :
    WrappedInv (decayExplosions ps w) := by
  obtain ⟨h1, h2, h3, h4, h5, h6⟩ := h
  refine ⟨h1, h2, ?_, h4, h5, h6⟩
  exact allP_foldl (fun l a hl => allP_aremove hl) ps w.explosions h3

theorem trailDecayOp_wrapped (key : Pos) (w : World) (h : WrappedInv w) :
    WrappedInv (trailDecayOp key w) := by
  obtain ⟨h1, h2, h3, h4, h5, h6⟩ := h
  exact ⟨h1, h2, h3, h4, h5, allP_aremove h6⟩

theorem expireOp_wrapped (now : Int) (w : World) (h : WrappedInv w) :
    WrappedInv (expireOp now w) := by
  obtain ⟨h1, h2, h3, h4, h5, h6⟩ := h
  refine ⟨?_, h2, h3, h4, h5, h6⟩
  apply allP_map
  intro a ha
  exact h1 a ha

theorem identifyCmd_wrapped (pid : String) (w : World) (h : WrappedInv w) :
    WrappedInv (identifyCmd pid w) := by
  unfold identifyCmd
  split
  · exact h
  · dsimp only
    obtain ⟨h1, h2, h3, h4, h5, h6⟩ := h
    exact ⟨allP_aset h1 (getSpawnPosition_inRange w.players w.walls), h2, h3, h4, h5, h6⟩

theorem normalRayGo_wrapped (pick : Int → Int → Nat) (now : Int) (bomb : Bomb)
    (dx dy : Int) :
    ∀ (fuel i : Nat) (w : World), WrappedInv w →
      WrappedInv (normalRayGo pick now bomb dx dy fuel i w).2 := by
  intro fuel
  induction fuel with
  | zero => intro i w h; exact h
  | succ fuel ih =>
    intro i w h
    rw [normalRayGo]
    dsimp only
    split
    · split
      · exact spawnPowerup_wrapped _ _ _ _ _ (inRange_wrap _ _)
          (walls_aremove_wrapped _ _
            (explosions_aset_wrapped _ _ _ (inRange_wrap _ _) h))
      · exact explosions_aset_wrapped _ _ _ (inRange_wrap _ _) h
    · exact ih (i + 1) _ (explosions_aset_wrapped _ _ _ (inRange_wrap _ _) h)

theorem createNormalExplosion_wrapped (pick : Int → Int → Nat) (now : Int)
    (bomb : Bomb) (w : World) (h : WrappedInv w) :
    WrappedInv (createNormalExplosion pick now bomb w).2 := by
  unfold createNormalExplosion
  have hgen : ∀ (ds : List (Int × Int)) (acc : List Pos × World), WrappedInv acc.2 →
      WrappedInv ((ds.foldl (fun acc d =>
        let r := normalRayGo pick now bomb d.1 d.2 bomb.range.toNat 1 acc.2
        (acc.1 ++ r.1, r.2)) acc)).2 := by
    intro ds
    induction ds with
    | nil => intro acc hacc; exact hacc
    | cons d ds ih =>
      intro acc hacc
      exact ih _ (normalRayGo_wrapped pick now bomb d.1 d.2 bomb.range.toNat 1 acc.2 hacc)
  exact hgen dirsList ([], w) h

theorem tornadoGo_wrapped (pick : Int → Int → Nat) (now : Int) (bomb : Bomb) :
    ∀ (offs : List (Int × Int)) (w : World), WrappedInv w →
      WrappedInv (tornadoGo pick now bomb offs w).2 := by
  intro offs
  induction offs with
  | nil => intro w h; exact h
  | cons d offs ih =>
    intro w h
    rw [tornadoGo]
    dsimp only
    apply ih
    split
    · split
      · exact spawnPowerup_wrapped _ _ _ _ _ (inRange_wrap _ _)
          (walls_aremove_wrapped _ _
            (explosions_aset_wrapped _ _ _ (inRange_wrap _ _) h))
      · exact explosions_aset_wrapped _ _ _ (inRange_wrap _ _) h
    · exact explosions_aset_wrapped _ _ _ (inRange_wrap _ _) h

theorem explodeBomb_wrapped (pick : Int → Int → Nat) (now : Int) (bomb : Bomb)
    (w : World) (hb : inRange bomb.x bomb.y) (h : WrappedInv w) :
    WrappedInv (explodeBomb pick now bomb w).1 := by
  unfold explodeBomb
  dsimp only
  apply cpec_wrapped
  split
  · exact tornadoGo_wrapped pick now bomb spiralPattern _
      (explosions_aset_wrapped _ _ _ hb h)
  · exact createNormalExplosion_wrapped pick now bomb _
      (explosions_aset_wrapped _ _ _ hb h)

theorem fuseFire_wrapped (pick : Int → Int → Nat) (now : Int) (key : Pos)
    (w : World) (h : WrappedInv w) : WrappedInv (fuseFire pick now key w) := by
  unfold fuseFire
  split
  · exact h
  · rename_i bomb hb
    have hbx : inRange bomb.x bomb.y := h.2.1 _ (alookup_mem hb)
    have h1 := explodeBomb_wrapped pick now bomb w hbx h
    obtain ⟨g1, g2, g3, g4, g5, g6⟩ := h1
    exact ⟨g1, allP_aremove g2, g3, g4, g5, g6⟩

theorem powerups_aremove_wrapped (w : World) (k : Pos) (h : WrappedInv w) :
    WrappedInv { w with powerups := aremove w.powerups k } := by
  obtain ⟨h1, h2, h3, h4, h5, h6⟩ := h
  exact ⟨h1, h2, h3, h4, allP_aremove h5, h6⟩

theorem movePullOne_wrapped (wx wy : Int) (pu : Powerup) (w : World)
    (hpu : inRange pu.x pu.y) (h : WrappedInv w) :
    WrappedInv (movePullOne wx wy pu w) := by
  have hx := pullCoordinate_mem wx pu.x COLS (by decide) hpu.1 hpu.2.1
  have hy := pullCoordinate_mem wy pu.y ROWS (by decide) hpu.2.2.1 hpu.2.2.2
  unfold movePullOne
  dsimp only
  split
  · obtain ⟨h1, h2, h3, h4, h5, h6⟩ := h
    exact ⟨h1, h2, h3, h4,
      allP_aset (allP_aremove h5) ⟨hx.1, hx.2, hy.1, hy.2⟩, h6⟩
  · exact h

theorem magnetPull_wrapped (wx wy : Int) (w : World) (h : WrappedInv w) :
    WrappedInv (magnetPull wx wy w) := by
  unfold magnetPull
  dsimp only
  refine wrapped_foldl (fun pu => inRange pu.x pu.y) _
    (fun w' pu hq hw => movePullOne_wrapped wx wy pu w' hq hw) _ _ ?_ h
  intro pu hmem
  have hm2 : pu ∈ w.powerups.map Prod.snd := List.mem_of_mem_filter hmem
  obtain ⟨e, he, rfl⟩ := List.mem_map.mp hm2
  exact h.2.2.2.2.1 e he

theorem moveTrail_wrapped (now : Int) (pid : String) (player : Player) (w : World)
    (hpl : inRange player.x player.y) (h : WrappedInv w) :
    WrappedInv (moveTrail now pid player w) := by
  unfold moveTrail
  dsimp only
  split
  · obtain ⟨h1, h2, h3, h4, h5, h6⟩ := h
    exact ⟨h1, h2, h3, h4, h5, allP_aset h6 hpl⟩
  · exact h

theorem moveMagnet_wrapped (player : Player) (wx wy : Int) (w : World)
    (h : WrappedInv w) : WrappedInv (moveMagnet player wx wy w) := by
  unfold moveMagnet
  split
  · exact magnetPull_wrapped wx wy w h
  · exact h

theorem moveFireTrailHit_wrapped (pid : String) (wx wy : Int) (w : World)
    (h : WrappedInv w) : WrappedInv (moveFireTrailHit pid wx wy w) := by
  unfold moveFireTrailHit
  split
  · split
    · exact cpec_wrapped _ _ h
    · exact h
  · exact h

theorem collectPowerup_wrapped (cs : Nat) (scrR : String → Nat → Nat × Nat)
    (now : Int) (pid : String) (x y : Int) (w : World) (h : WrappedInv w) :
    WrappedInv (collectPowerup cs scrR now pid x y w).1 := by
  unfold collectPowerup
  rcases hpu : alookup w.powerups (x, y) with _ | pu
  · simp only [hpu]
    exact h
  rcases hp : alookup w.players pid with _ | player
  · simp only [hpu, hp]
    exact h
  rcases hpd : powerupDefFind pu.type with _ | pdef
  · simp only [hpu, hp, hpd]
    exact h
  simp only [hpu, hp, hpd]
  have hpl : inRange player.x player.y := h.1 _ (alookup_mem hp)
  apply powerups_aremove_wrapped
  split
  · exact updPlayer_wrapped _ _ _ hpl h
  split
  · split
    · rcases ht : alookup w.players
          (((w.players.filter (fun e => decide (e.1 ≠ pid) && e.2.alive)).map
            Prod.fst).getD (cs % ((w.players.filter
              (fun e => decide (e.1 ≠ pid) && e.2.alive)).map Prod.fst).length) "")
        with _ | target
      · simp only [ht]
        exact h
      · simp only [ht]
        have htg : inRange target.x target.y := h.1 _ (alookup_mem ht)
        exact updPlayer_wrapped _ _ _ hpl (updPlayer_wrapped _ _ _ htg h)
    · exact h
  split
  · refine ⟨?_, h.2.1, h.2.2.1, h.2.2.2.1, h.2.2.2.2.1, h.2.2.2.2.2⟩
    apply allP_map
    intro a ha
    dsimp only
    split
    · exact scrambleGo_inRange _ _ 19 0
    · exact h.1 a ha
  split
  · exact updPlayer_wrapped _ _ _ hpl h
  · exact updPlayer_wrapped _ _ _ hpl h

theorem moveCmd_wrapped (cs : Nat) (scrR : String → Nat → Nat × Nat) (now : Int)
    (pid : String) (x y : Int) (w : World) (h : WrappedInv w) :
    WrappedInv (moveCmd cs scrR now pid x y w) := by
  unfold moveCmd
  rcases hp : alookup w.players pid with _ | player
  · simp only [hp]
    exact h
  simp only [hp]
  split
  · exact h
  · have hpl : inRange player.x player.y := h.1 _ (alookup_mem hp)
    have hmain : WrappedInv (moveFireTrailHit pid (wrapCoordinate x COLS)
        (wrapCoordinate y ROWS)
        (collectPowerup cs scrR now pid (wrapCoordinate x COLS) (wrapCoordinate y ROWS)
          (moveMagnet player (wrapCoordinate x COLS) (wrapCoordinate y ROWS)
            (updPlayer pid
              { player with x := wrapCoordinate x COLS, y := wrapCoordinate y ROWS }
              (moveTrail now pid player w)))).1) := by
      refine moveFireTrailHit_wrapped _ _ _ _
        (collectPowerup_wrapped _ _ _ _ _ _ _
          (moveMagnet_wrapped _ _ _ _
            (updPlayer_wrapped _ _ _ ?_
              (moveTrail_wrapped _ _ _ _ hpl h))))
      exact inRange_wrap x y
    split <;> split
    · exact hmain
    · exact h
    · exact hmain
    · exact h

theorem teleportCmd_wrapped (pid : String) (x y : Int) (w : World)
    (h : WrappedInv w) : WrappedInv (teleportCmd pid x y w) := by
  unfold teleportCmd
  rcases hp : alookup w.players pid with _ | player
  · simp only [hp]
    exact h
  simp only [hp]
  split
  · exact h
  split
  · exact h
  split
  · refine updPlayer_wrapped _ _ _ ?_ h
    have hc := consumeUse_xy "teleport"
      { player with x := wrapCoordinate x COLS, y := wrapCoordinate y ROWS }
    rw [hc.1, hc.2]
    exact inRange_wrap x y
  · exact h

theorem buildWallCmd_wrapped (pid : String) (x y : Int) (w : World)
    (h : WrappedInv w) : WrappedInv (buildWallCmd pid x y w) := by
  unfold buildWallCmd
  rcases hp : alookup w.players pid with _ | player
  · simp only [hp]
    exact h
  simp only [hp]
  split
  · exact h
  split
  · exact h
  split
  · refine updPlayer_wrapped _ _ _ ?_ ?_
    · have hc := consumeUse_xy "wall_builder" player
      rw [hc.1, hc.2]
      exact h.1 _ (alookup_mem hp)
    · obtain ⟨h1, h2, h3, h4, h5, h6⟩ := h
      exact ⟨h1, h2, h3, allP_aset h4 (inRange_wrap x y), h5, h6⟩
  · exact h

theorem initWalls_wrapped (draw : Nat → Nat × Nat) (w : World) (h : WrappedInv w) :
    WrappedInv (initWalls draw w) := by
  unfold initWalls
  dsimp only
  obtain ⟨h1, h2, h3, h4, h5, h6⟩ := h
  refine ⟨h1, h2, h3, ?_, h5, h6⟩
  apply allP_foldl
  · intro l i hl
    dsimp only
    split
    · refine allP_aset hl ?_
      dsimp only
      have hc : (COLS - 4).toNat = 21 := rfl
      have hr : (ROWS - 4).toNat = 15 := rfl
      unfold inRange
      rw [hc, hr, COLS_eq, ROWS_eq]
      refine ⟨?_, ?_, ?_, ?_⟩ <;> omega
    · exact hl
  · intro e he
    rw [List.mem_flatten] at he
    obtain ⟨L, hL, heL⟩ := he
    obtain ⟨xv, hx, rfl⟩ := List.mem_map.mp hL
    obtain ⟨yv, hy, rfl⟩ := List.mem_map.mp heL
    have hx' := List.mem_filter.mp hx
    have hy' := List.mem_filter.mp hy
    obtain ⟨xn, hxn, rfl⟩ := List.mem_map.mp hx'.1
    obtain ⟨yn, hyn, rfl⟩ := List.mem_map.mp hy'.1
    have hx2 := hx'.2
    have hy2 := hy'.2
    simp only [Bool.and_eq_true, decide_eq_true_eq, Int.ofNat_eq_natCast] at hx2 hy2
    rw [COLS_eq] at hx2
    rw [ROWS_eq] at hy2
    dsimp only
    unfold inRange
    rw [COLS_eq, ROWS_eq]
    simp only [Int.ofNat_eq_natCast]
    refine ⟨?_, ?_, ?_, ?_⟩ <;> omega

theorem connectOp_wrapped (draw : Nat → Nat × Nat) (w : World) (h : WrappedInv w) :
    WrappedInv (connectOp draw w) := by
  unfold connectOp
  split
  · exact initWalls_wrapped draw w h
  · exact h

theorem srbGo_wrapped (draw : Nat → Nat × Nat) :
    ∀ (fuel k : Nat) (w : World), WrappedInv w → WrappedInv (srbGo draw k fuel w) := by
  intro fuel
  induction fuel with
  | zero => intro k w h; exact h
  | succ fuel ih =>
    intro k w h
    rw [srbGo]
    split
    · obtain ⟨h1, h2, h3, h4, h5, h6⟩ := h
      refine ⟨h1, h2, h3, allP_aset h4 ?_, h5, h6⟩
      dsimp only
      have hc : (COLS - 4).toNat = 21 := rfl
      have hr : (ROWS - 4).toNat = 15 := rfl
      unfold inRange
      rw [hc, hr, COLS_eq, ROWS_eq]
      refine ⟨?_, ?_, ?_, ?_⟩ <;> omega
    · exact ih (k + 1) w h

theorem spawnRandomBlock_wrapped (draw : Nat → Nat × Nat) (w : World)
    (h : WrappedInv w) : WrappedInv (spawnRandomBlock draw w) := by
  unfold spawnRandomBlock
  dsimp only
  split
  · exact h
  · exact srbGo_wrapped draw 20 0 w h

theorem placeBombCmd_wrapped (bid pid : String) (x y : Int) (w : World)
    (hxy : inRange x y) (h : WrappedInv w) :
    WrappedInv (placeBombCmd bid pid x y w) := by
  unfold placeBombCmd
  rcases hp : alookup w.players pid with _ | player
  · simp only [hp]
    exact h
  simp only [hp]
  split
  · exact h
  · unfold placeBomb
    dsimp only
    split
    · exact h
    · simp only [hp]
      have hpl : inRange player.x player.y := h.1 _ (alookup_mem hp)
      obtain ⟨h1, h2, h3, h4, h5, h6⟩ := h
      refine ⟨allP_aset h1 ?_, allP_aset h2 hxy, h3, h4, h5, h6⟩
      split
      · exact consumeUse_inRange _ _ hpl
      split
      · exact consumeUse_inRange _ _ hpl
      · exact hpl

def c4World : World :=
  { emptyWorld with players := [("p1", ⟨"p1", 2, 2, "", true, 5, []⟩)] }

/-- C4, counterexample to the claim as stated: in a world whose every stored
coordinate is wrapped, the `placeBomb` command with the raw payload
`(100, 5)` stores a bomb whose coordinates are NOT in
`[0, COLS) x [0, ROWS)` — `placeBomb` never wraps its input. -/
theorem c4_raw_bomb_counterexample :
    WrappedInv c4World ∧
    ¬WrappedInv (applyOp (Op.place "b" "p1" 100 5) c4World) := by decide

/-- C4 (amended): after every operation — client command or timer body —
every coordinate stored on an entity of the world (players, bombs,
explosions, walls, power-ups, fire trails) lies in `[0, COLS) x [0, ROWS)`,
PROVIDED every `placeBomb` command's payload coordinates are already in
that range: unlike the move/teleport/buildWall handlers, `placeBomb` stores
its input coordinates raw, without wrapping, so `place` operations carry an
in-range side condition (`opCoordsOk`) that all other operations do not
need. -/
theorem c4_wrapped_invariant (op : Op) (w : World) (h : WrappedInv w)
    (hok : opCoordsOk op) : WrappedInv (applyOp op w) := by
  cases op with
  | connect draw => exact connectOp_wrapped draw w h
  | identify pid => exact identifyCmd_wrapped pid w h
  | move cs sr now pid x y => exact moveCmd_wrapped cs sr now pid x y w h
  | place bid pid x y => exact placeBombCmd_wrapped bid pid x y w hok h
  | teleport pid x y => exact teleportCmd_wrapped pid x y w h
  | build pid x y => exact buildWallCmd_wrapped pid x y w h
  | fuse pick now key => exact fuseFire_wrapped pick now key w h
  | decay ps => exact decayExplosions_wrapped ps w h
  | trailDecay key => exact trailDecayOp_wrapped key w h
  | blockSpawn draw => exact spawnRandomBlock_wrapped draw w h
  | expire now => exact expireOp_wrapped now w h

theorem c4_wrapped_invariant_witness :
    WrappedInv c4World ∧ opCoordsOk (Op.place "b2" "p1" 3 2) ∧
    WrappedInv (applyOp (Op.place "b2" "p1" 3 2) c4World) :=
  ⟨by decide, by decide,
    c4_wrapped_invariant (Op.place "b2" "p1" 3 2) c4World (by decide) (by decide)⟩

end Bomberman
